import Mathlib

/-!
# Verification of the tibia-web query/cache core

Shallow embedding of the wire-protocol codec, the text transcoder, the
connection/query executor and the cache layer of `common.go` / `query.go`,
together with theorems settling the specification claims.

Conventions used throughout the embedding:
* Go byte arrays become `List Nat`, each element standing for one byte.
* Machine-integer casts and bit operations are written arithmetically:
  `byte(v)` becomes `v % 256`, `v >> k` becomes `v / 2^k`, `v & (2^k - 1)`
  becomes `v % 2^k`, and a bitwise or of operands with disjoint bit ranges
  is written as `+`.
* `time.Time` values become `Nat` instants; the Go zero `time.Time` is the
  instant `0`, `time.Since(t)` at instant `now` is `now - t`, and
  `time.Until(t)` being `<= 0` is `t <= now`.
* Fallible or panicking paths are made explicit with `Option` / `Except`.
-/

namespace TibiaWeb

/-! ## Byte codec (`common.go`) -/

/-- Little-endian byte pair written by `binary.LittleEndian.PutUint16`. -/
def le16bytes (v : Nat) : List Nat :=
  [v % 256, v / 256 % 256]

/-- Little-endian byte quadruple written by `binary.LittleEndian.PutUint32`. -/
def le32bytes (v : Nat) : List Nat :=
  [v % 256, v / 256 % 256, v / 65536 % 256, v / 16777216 % 256]

/-- Value of `binary.LittleEndian.Uint16` on two bytes. -/
def readLE16 (b0 b1 : Nat) : Nat :=
  b0 + 256 * b1

/-- Value of `binary.LittleEndian.Uint32` on four bytes. -/
def readLE32 (b0 b1 b2 b3 : Nat) : Nat :=
  b0 + 256 * b1 + 65536 * b2 + 16777216 * b3

/-- Embeds `TWriteBuffer` from `common.go`: a fixed buffer and a cursor.
`Buffer` keeps its length under every operation; `Position` may run past
the end (writes past the end are dropped but still advance the cursor). -/
structure TWriteBuffer where
  Buffer : List Nat
  Position : Nat
deriving DecidableEq

/-- Embeds `TWriteBuffer.CanWrite`. -/
def TWriteBuffer.CanWrite (wb : TWriteBuffer) (bytes : Nat) : Bool :=
  wb.Position + bytes ≤ wb.Buffer.length

/-- Embeds `TWriteBuffer.Overflowed`. -/
def TWriteBuffer.Overflowed (wb : TWriteBuffer) : Bool :=
  wb.Buffer.length < wb.Position

/-- Embeds `TWriteBuffer.Write8`. -/
def TWriteBuffer.Write8 (wb : TWriteBuffer) (value : Nat) : TWriteBuffer :=
  if wb.CanWrite 1 then
    { Buffer := wb.Buffer.set wb.Position (value % 256), Position := wb.Position + 1 }
  else
    { wb with Position := wb.Position + 1 }

/-- Embeds `TWriteBuffer.Write16` (little-endian). -/
def TWriteBuffer.Write16 (wb : TWriteBuffer) (value : Nat) : TWriteBuffer :=
  if wb.CanWrite 2 then
    { Buffer := (wb.Buffer.set wb.Position (value % 256)).set (wb.Position + 1) (value / 256 % 256),
      Position := wb.Position + 2 }
  else
    { wb with Position := wb.Position + 2 }

/-- Embeds `TWriteBuffer.Rewrite16`: patch a 16-bit little-endian field that
was already written earlier in the buffer. -/
def TWriteBuffer.Rewrite16 (wb : TWriteBuffer) (position value : Nat) : TWriteBuffer :=
  if position + 2 ≤ wb.Position ∧ ¬ wb.Overflowed then
    { wb with Buffer := (wb.Buffer.set position (value % 256)).set (position + 1) (value / 256 % 256) }
  else
    wb

/-- Embeds `TWriteBuffer.Insert32`: splice four extra bytes in at `position`
(little-endian encoding of `value`, exactly as `binary.LittleEndian.PutUint32`
does after the `copy` shift), moving everything after it and dropping the last
four bytes of the fixed buffer. -/
def TWriteBuffer.Insert32 (wb : TWriteBuffer) (position value : Nat) : TWriteBuffer :=
  if position ≤ wb.Position then
    if wb.CanWrite 4 then
      { Buffer := wb.Buffer.take position ++ le32bytes value ++
          (wb.Buffer.drop position).take (wb.Buffer.length - position - 4),
        Position := wb.Position + 4 }
    else
      { wb with Position := wb.Position + 4 }
  else
    wb

/-- Modelled from the spec: the variant of `Insert32` the specification
describes, writing the spliced 32-bit extended length big-endian ("two
big-endian variants exist and are used only for the extended 32-bit length
fields embedded inside framing headers"). -/
def TWriteBuffer.Insert32SpecBE (wb : TWriteBuffer) (position value : Nat) : TWriteBuffer :=
  if position ≤ wb.Position then
    if wb.CanWrite 4 then
      { Buffer := wb.Buffer.take position ++
          [value / 16777216 % 256, value / 65536 % 256, value / 256 % 256, value % 256] ++
          (wb.Buffer.drop position).take (wb.Buffer.length - position - 4),
        Position := wb.Position + 4 }
    else
      { wb with Position := wb.Position + 4 }
  else
    wb

/-! ## Text transcoder (`common.go`) -/

/-- `utf8.RuneError`, the Unicode replacement character U+FFFD. -/
def RUNE_ERROR : Nat := 0xFFFD

/-- Embeds Go `utf8.RuneStart`: `b & 0xC0 != 0x80`, written arithmetically
for byte values. -/
def runeStart (b : Nat) : Bool :=
  b / 64 % 4 ≠ 2

/-- Lower bound of the accept range for the second byte of a multi-byte
sequence, keyed by the leading byte (Go `utf8.acceptRanges`). -/
def acceptLo (p0 : Nat) : Nat :=
  if p0 = 0xE0 then 0xA0 else if p0 = 0xF0 then 0x90 else 0x80

/-- Upper bound of the accept range for the second byte of a multi-byte
sequence, keyed by the leading byte (Go `utf8.acceptRanges`). -/
def acceptHi (p0 : Nat) : Nat :=
  if p0 = 0xED then 0x9F else if p0 = 0xF4 then 0x8F else 0xBF

/-- Embeds Go `utf8.DecodeRune`: returns the decoded code point and the
number of bytes consumed; an empty input gives `(RUNE_ERROR, 0)` and every
invalid sequence gives `(RUNE_ERROR, 1)`.  Code points are assembled
arithmetically: `(p0 & 0x1F) << 6 | (b1 & 0x3F)` is `p0 % 32 * 64 + b1 % 64`
and so on, the or-ed bit ranges being disjoint. -/
def utf8DecodeRune : List Nat → Nat × Nat
  | [] => (RUNE_ERROR, 0)
  | p0 :: rest =>
    if p0 < 0x80 then (p0, 1)
    else if p0 < 0xC2 ∨ 0xF4 < p0 then (RUNE_ERROR, 1)
    else
      match rest with
      | [] => (RUNE_ERROR, 1)
      | b1 :: rest1 =>
        if b1 < acceptLo p0 ∨ acceptHi p0 < b1 then (RUNE_ERROR, 1)
        else if p0 < 0xE0 then (p0 % 32 * 64 + b1 % 64, 2)
        else
          match rest1 with
          | [] => (RUNE_ERROR, 1)
          | b2 :: rest2 =>
            if b2 < 0x80 ∨ 0xBF < b2 then (RUNE_ERROR, 1)
            else if p0 < 0xF0 then (p0 % 16 * 4096 + b1 % 64 * 64 + b2 % 64, 3)
            else
              match rest2 with
              | [] => (RUNE_ERROR, 1)
              | b3 :: _ =>
                if b3 < 0x80 ∨ 0xBF < b3 then (RUNE_ERROR, 1)
                else (p0 % 8 * 262144 + b1 % 64 * 4096 + b2 % 64 * 64 + b3 % 64, 4)

/-- Embeds Go `utf8.AppendRune` (the bytes appended for one code point):
the UTF-8 encoding of `r`, with surrogates and out-of-range values encoded
as the replacement character. -/
def utf8EncodeRune (r : Nat) : List Nat :=
  if r < 0x80 then [r]
  else if r < 0x800 then [192 + r / 64, 128 + r % 64]
  else if (0xD800 ≤ r ∧ r ≤ 0xDFFF) ∨ 0x10FFFF < r then [239, 191, 189]
  else if r < 0x10000 then [224 + r / 4096, 128 + r / 64 % 64, 128 + r % 64]
  else [240 + r / 262144, 128 + r / 4096 % 64, 128 + r / 64 % 64, 128 + r % 64]

/-- Helper for `UTF8FindNextLeadingByte`: scan the bytes after the first one
for the next leading byte. -/
def findStart : List Nat → Nat
  | [] => 0
  | b :: rest => if runeStart b then 0 else 1 + findStart rest

/-- Embeds `UTF8FindNextLeadingByte` from `common.go`: offset of the next
leading byte, never offset `0` (the first byte is always stepped over). -/
def UTF8FindNextLeadingByte : List Nat → Nat
  | [] => 0
  | _ :: rest => 1 + findStart rest

/-- The number of bytes the `UTF8ToLatin1` loop advances by in one
iteration: the decoded size for a valid sequence, else the offset of the
next leading byte. -/
def utf8Skip (buffer : List Nat) : Nat :=
  if (utf8DecodeRune buffer).1 ≠ RUNE_ERROR then (utf8DecodeRune buffer).2
  else UTF8FindNextLeadingByte buffer

/-- The loop body of `UTF8ToLatin1` from `common.go`, made structural with a
fuel argument (one unit per loop iteration; the wrapper supplies
`buffer.length`, which is always enough because every iteration advances the
read position by at least one byte). -/
def UTF8ToLatin1Go : Nat → List Nat → List Nat
  | 0, _ => []
  | _, [] => []
  | fuel + 1, b :: rest =>
    (if (utf8DecodeRune (b :: rest)).1 ≤ 0xFF then (utf8DecodeRune (b :: rest)).1 else 0x3F) ::
      UTF8ToLatin1Go fuel ((b :: rest).drop (utf8Skip (b :: rest)))

/-- Embeds `UTF8ToLatin1` from `common.go`: decode one code point at a time;
on an invalid sequence skip to the next leading byte; append the code point
as one byte if it is at most `0xFF`, else the placeholder `'?'` (`0x3F`). -/
def UTF8ToLatin1 (buffer : List Nat) : List Nat :=
  UTF8ToLatin1Go buffer.length buffer

/-- Embeds `Latin1ToUTF8` from `common.go`: expand every input byte into the
UTF-8 encoding of its code point. -/
def Latin1ToUTF8 : List Nat → List Nat
  | [] => []
  | b :: rest => utf8EncodeRune b ++ Latin1ToUTF8 rest

/-! ## Connection and query executor (`query.go`) -/

def QUERY_STATUS_OK : Nat := 0

def QUERY_STATUS_ERROR : Nat := 1

def QUERY_STATUS_FAILED : Nat := 3

def MAX_ATTEMPTS : Nat := 2

/-- Embeds `TReadBuffer` from `common.go` (only the part `ExecuteQuery`
itself uses). -/
structure TReadBuffer where
  Buffer : List Nat
  Position : Nat
deriving DecidableEq

/-- Embeds `TReadBuffer.Read8`: the byte at the cursor (zero past the end),
and the buffer with the cursor advanced. -/
def TReadBuffer.Read8 (rb : TReadBuffer) : Nat × TReadBuffer :=
  (if rb.Position + 1 ≤ rb.Buffer.length then rb.Buffer.getD rb.Position 0 else 0,
   { rb with Position := rb.Position + 1 })

/-- The network behavior one attempt of `ExecuteQuery` observes.  `Connect`
(dial plus the mandatory login exchange, which performs its own I/O) is
abstracted by `connectOk`; each read either fails (`none`) or delivers the
requested bytes. -/
structure NetStep where
  connectOk : Bool
  writeOk : Bool
  sizeBytes : Option (Nat × Nat)
  extBytes : Option (Nat × Nat × Nat × Nat)
  bodyBytes : Option (List Nat)
deriving DecidableEq

/-- Result of one `ExecuteQuery` run: the status, the connection state left
behind, and the response read buffer (positioned after the status byte). -/
structure ExecOutcome where
  Status : Nat
  Connected : Bool
  Response : TReadBuffer
deriving DecidableEq

/-- The retry loop of `ExecuteQuery` (`query.go`, steps (a)-(f)).  `oracle`
gives each attempt's network behavior, `attempt` starts at 1, and `fuel`
(called with `MAX_ATTEMPTS`) makes the bounded loop structural: the loop
re-enters only while `attempt < MAX_ATTEMPTS`, so the fuel never runs out.
Write and size-read failures disconnect and retry until `MAX_ATTEMPTS` is
reached; extended-size-read failures, invalid response sizes and body-read
failures disconnect and fail immediately.  On success the body overwrites
the front of the shared buffer and the first byte is the status. -/
def execLoop (autoReconnect : Bool) (buffer : List Nat) (oracle : Nat → NetStep) :
    Nat → Nat → Bool → ExecOutcome
  | 0, _, _ => ⟨QUERY_STATUS_FAILED, false, ⟨[], 0⟩⟩
  | fuel + 1, attempt, connected =>
    let step := oracle attempt
    if connected = false ∧ (autoReconnect = false ∨ step.connectOk = false) then
      ⟨QUERY_STATUS_FAILED, false, ⟨[], 0⟩⟩
    else if step.writeOk = false then
      if MAX_ATTEMPTS ≤ attempt then ⟨QUERY_STATUS_FAILED, false, ⟨[], 0⟩⟩
      else execLoop autoReconnect buffer oracle fuel (attempt + 1) false
    else
      match step.sizeBytes with
      | none =>
        if MAX_ATTEMPTS ≤ attempt then ⟨QUERY_STATUS_FAILED, false, ⟨[], 0⟩⟩
        else execLoop autoReconnect buffer oracle fuel (attempt + 1) false
      | some (s0, s1) =>
        let sizePrefix := readLE16 s0 s1
        let extSize :=
          if sizePrefix = 0xFFFF then
            match step.extBytes with
            | none => none
            | some (e0, e1, e2, e3) => some (readLE32 e0 e1 e2 e3)
          else some sizePrefix
        match extSize with
        | none => ⟨QUERY_STATUS_FAILED, false, ⟨[], 0⟩⟩
        | some responseSize =>
          if responseSize = 0 ∨ buffer.length < responseSize then
            ⟨QUERY_STATUS_FAILED, false, ⟨[], 0⟩⟩
          else
            match step.bodyBytes with
            | none => ⟨QUERY_STATUS_FAILED, false, ⟨[], 0⟩⟩
            | some body =>
              let readBuffer : TReadBuffer := ⟨body ++ buffer.drop body.length, 0⟩
              let r := readBuffer.Read8
              ⟨r.1, true, r.2⟩

/-- Steps 1-2 of `ExecuteQuery`: the panic guard (`Except.error ()` stands
for the `panic` on a write buffer with at most the 2-byte placeholder
header), the length-header patch (direct 16-bit, or `0xFFFF` sentinel plus
spliced 32-bit extension), and the overflow check (`Except.ok none` stands
for returning the generic failure status without touching the network). -/
def frameRequest (wb : TWriteBuffer) : Except Unit (Option TWriteBuffer) :=
  if wb.Position ≤ 2 then Except.error ()
  else
    let requestSize := wb.Position - 2
    let wb1 :=
      if requestSize < 0xFFFF then wb.Rewrite16 0 requestSize
      else (wb.Rewrite16 0 0xFFFF).Insert32 2 requestSize
    if wb1.Overflowed then Except.ok none
    else Except.ok (some wb1)

/-- Embeds `ExecuteQuery` from `query.go` over the network oracle:
frame the request, then run the retry loop. -/
def ExecuteQuery (autoReconnect : Bool) (wb : TWriteBuffer) (connected : Bool)
    (oracle : Nat → NetStep) : Except Unit ExecOutcome :=
  match frameRequest wb with
  | Except.error () => Except.error ()
  | Except.ok none => Except.ok ⟨QUERY_STATUS_FAILED, connected, ⟨[], 0⟩⟩
  | Except.ok (some wb1) =>
    Except.ok (execLoop autoReconnect wb1.Buffer oracle MAX_ATTEMPTS 1 connected)

/-- The attempt script of a fully successful exchange whose response size is
carried directly in the 16-bit prefix and whose body starts with status
`b0`. -/
def StepSucceeds (bufLen : Nat) (s : NetStep) (b0 : Nat) (brest : List Nat) : Prop :=
  s.writeOk = true ∧
  ∃ s0 s1, s.sizeBytes = some (s0, s1) ∧
    readLE16 s0 s1 ≠ 0xFFFF ∧ readLE16 s0 s1 ≠ 0 ∧ readLE16 s0 s1 ≤ bufLen ∧
    s.bodyBytes = some (b0 :: brest)

/-! ## Typed data model and cache layer (`query.go`) -/

structure TCharacterSummary where
  Name : String
  World : String
  Level : Int
  Profession : String
  Online : Bool
  Deleted : Bool
deriving DecidableEq

structure TAccountSummary where
  AccountID : Int
  Email : String
  PremiumDays : Int
  PendingPremiumDays : Int
  Deleted : Bool
  Characters : List TCharacterSummary
deriving DecidableEq

structure TCharacterProfile where
  Name : String
  World : String
  Sex : Int
  Guild : String
  Rank : String
  Title : String
  Level : Int
  Profession : String
  Residence : String
  LastLogin : Int
  PremiumDays : Int
  Online : Bool
  Deleted : Bool
deriving DecidableEq

structure TWorld where
  Name : String
  Type' : String
  NumPlayers : Int
  MaxPlayers : Int
  OnlinePeak : Int
  OnlinePeakTimestamp : Int
  LastStartup : Int
  LastShutdown : Int
deriving DecidableEq

/-- The Go zero value of `TAccountSummary`. -/
def zeroAccountSummary : TAccountSummary := ⟨0, "", 0, 0, false, []⟩

/-- The Go zero value of `TCharacterProfile`. -/
def zeroCharacterProfile : TCharacterProfile := ⟨"", "", 0, "", "", "", 0, "", "", 0, 0, false, false⟩

/-- Embeds `TAccountCacheEntry`; `LastAccess` is a `Nat` instant, `0` being
the Go zero `time.Time`. -/
structure TAccountCacheEntry where
  AccountID : Int
  Result : Int
  Data : TAccountSummary
  LastAccess : Nat
deriving DecidableEq

/-- Embeds `TCharacterCacheEntry`. -/
structure TCharacterCacheEntry where
  CharacterName : String
  Result : Int
  Data : TCharacterProfile
  LastAccess : Nat
deriving DecidableEq

/-- The Go zero value of `TAccountCacheEntry` (an empty cache slot). -/
def zeroAccountEntry : TAccountCacheEntry := ⟨0, 0, zeroAccountSummary, 0⟩

/-- The Go zero value of `TCharacterCacheEntry` (an empty cache slot). -/
def zeroCharacterEntry : TCharacterCacheEntry := ⟨"", 0, zeroCharacterProfile, 0⟩

/-- Embeds Go `strings.EqualFold` on the ASCII names this service handles:
case-insensitive equality by ASCII case folding. -/
def foldChar (c : Char) : Char :=
  if 'A' ≤ c ∧ c ≤ 'Z' then Char.ofNat (c.toNat + 32) else c

/-- Case-insensitive string equality (`strings.EqualFold`), computed on the
underlying character lists. -/
def EqualFold (a b : String) : Bool :=
  a.data.map foldChar = b.data.map foldChar

/-- The per-slot passive-expiry sweep of the account-cache scan loop:
`time.Since(LastAccess) >= interval` resets the slot to its zero value. -/
def sweepAccount (now interval : Nat) (e : TAccountCacheEntry) : TAccountCacheEntry :=
  if interval ≤ now - e.LastAccess then zeroAccountEntry else e

/-- The per-slot passive-expiry sweep of the character-cache scan loop. -/
def sweepCharacter (now interval : Nat) (e : TCharacterCacheEntry) : TCharacterCacheEntry :=
  if interval ≤ now - e.LastAccess then zeroCharacterEntry else e

/-- Result of one bounded-recency-cache scan: the slots after the sweep
(slots past the first match untouched), the index and last-access time of
the least-recently-used slot seen, and the index of the first match. -/
structure ScanResult (α : Type) where
  swept : List α
  lruIdx : Nat
  lruTime : Nat
  found : Option Nat
deriving DecidableEq

/-- The shared shape of the scan loops in `GetAccountSummary` and
`GetCharacterProfile` (`query.go`): walk the slots from index `i`, clear
any slot whose last access is at least the refresh interval old
(`sweepOne`), track the slot with the strictly oldest last-access time
(ties keep the earlier index), and stop at the first slot matching the
key. -/
def cacheScan {α : Type} (sweepOne : α → α) (getTime : α → Nat) (keyMatch : α → Bool) :
    List α → Nat → Nat → Nat → ScanResult α
  | [], _, acc, accT => ⟨[], acc, accT, none⟩
  | e :: rest, i, acc, accT =>
    let e1 := sweepOne e
    let acc1 := if getTime e1 < accT then i else acc
    let accT1 := if getTime e1 < accT then getTime e1 else accT
    if keyMatch e1 then ⟨e1 :: rest, acc1, accT1, some i⟩
    else
      let r := cacheScan sweepOne getTime keyMatch rest (i + 1) acc1 accT1
      ⟨e1 :: r.swept, r.lruIdx, r.lruTime, r.found⟩

/-- Result of one `GetAccountSummary` call: result code, decoded summary,
the cache left behind, and whether the backend was queried. -/
structure AccountCallResult where
  Result : Int
  Account : TAccountSummary
  Cache : List TAccountCacheEntry
  BackendQueried : Bool
deriving DecidableEq

/-- Embeds `GetAccountSummary` from `query.go`.  `backend` abstracts the
connection's typed query (`TQueryManagerConnection.GetAccountSummary`);
the global cache is passed and returned explicitly; `none` stands for the
Go panic of indexing an empty cache (capacity 0).  A hit returns result 0
and refreshes the slot's last access; a miss queries the backend and
stores the outcome in the least-recently-used slot only on success. -/
def GetAccountSummary (maxCachedAccounts now interval : Nat)
    (backend : Int → Int × TAccountSummary)
    (cache0 : List TAccountCacheEntry) (accountID : Int) : Option AccountCallResult :=
  let cache := if cache0 = [] then List.replicate maxCachedAccounts zeroAccountEntry else cache0
  match cache with
  | [] => none
  | e0 :: _ =>
    let r := cacheScan (sweepAccount now interval) (fun e => e.LastAccess)
      (fun e => e.AccountID == accountID) cache 0 0 e0.LastAccess
    match r.found with
    | some i =>
      let entry := r.swept.getD i zeroAccountEntry
      some ⟨0, entry.Data, r.swept.set i { entry with LastAccess := now }, false⟩
    | none =>
      let b := backend accountID
      if b.1 = 0 then
        let old := r.swept.getD r.lruIdx zeroAccountEntry
        some ⟨b.1, b.2, r.swept.set r.lruIdx
          { old with AccountID := accountID, Data := b.2, LastAccess := now }, true⟩
      else
        some ⟨b.1, b.2, r.swept, true⟩

/-- Result of one `GetCharacterProfile` call. -/
structure CharacterCallResult where
  Result : Int
  Character : TCharacterProfile
  Cache : List TCharacterCacheEntry
  BackendQueried : Bool
deriving DecidableEq

/-- Embeds `GetCharacterProfile` from `query.go`.  Names are matched
case-insensitively.  A hit returns the stored result code and payload; a
miss queries the backend and stores the outcome — success or failure —
in the least-recently-used slot. -/
def GetCharacterProfile (maxCachedCharacters now interval : Nat)
    (backend : String → Int × TCharacterProfile)
    (cache0 : List TCharacterCacheEntry) (characterName : String) :
    Option CharacterCallResult :=
  let cache := if cache0 = [] then List.replicate maxCachedCharacters zeroCharacterEntry
               else cache0
  match cache with
  | [] => none
  | e0 :: _ =>
    let r := cacheScan (sweepCharacter now interval) (fun e => e.LastAccess)
      (fun e => EqualFold e.CharacterName characterName) cache 0 0 e0.LastAccess
    match r.found with
    | some i =>
      let entry := r.swept.getD i zeroCharacterEntry
      some ⟨entry.Result, entry.Data, r.swept.set i { entry with LastAccess := now }, false⟩
    | none =>
      let b := backend characterName
      some ⟨b.1, b.2, r.swept.set r.lruIdx ⟨characterName, b.1, b.2, now⟩, true⟩

/-- The worlds cache: one snapshot slice plus one refresh deadline
(`g_WorldCache`, `g_WorldCacheRefreshTime`). -/
structure WorldsState where
  Cache : List TWorld
  RefreshTime : Nat
deriving DecidableEq

/-- Result of one `GetWorlds` call. -/
structure WorldsCallResult where
  Worlds : List TWorld
  State : WorldsState
  BackendQueried : Bool
deriving DecidableEq

/-- Embeds `GetWorlds` from `query.go`: if the deadline has passed
(`time.Until(refresh) <= 0`, i.e. `RefreshTime <= now`), fetch the whole
collection; on success replace both the snapshot and the deadline; on
failure leave both unchanged; always return the (possibly just replaced)
snapshot. -/
def GetWorlds (now interval : Nat) (backend : Int × List TWorld)
    (st : WorldsState) : WorldsCallResult :=
  if st.RefreshTime ≤ now then
    if backend.1 = 0 then ⟨backend.2, ⟨backend.2, now + interval⟩, true⟩
    else ⟨st.Cache, st, true⟩
  else ⟨st.Cache, st, false⟩

/-! ### Transcoder lemmas -/

theorem utf8DecodeRune_size_pos (x : Nat) (rest : List Nat) :
    1 ≤ (utf8DecodeRune (x :: rest)).2 := by
  rcases rest with _ | ⟨b1, _ | ⟨b2, _ | ⟨b3, r⟩⟩⟩ <;>
    simp only [utf8DecodeRune] <;> (repeat' split) <;> simp

theorem utf8Skip_pos (x : Nat) (rest : List Nat) : 1 ≤ utf8Skip (x :: rest) := by
  unfold utf8Skip
  split
  · exact utf8DecodeRune_size_pos x rest
  · simp [UTF8FindNextLeadingByte]

theorem UTF8ToLatin1Go_fuel : ∀ (fuel : Nat) (l : List Nat), l.length ≤ fuel →
    UTF8ToLatin1Go fuel l = UTF8ToLatin1Go l.length l := by
  intro fuel
  induction fuel using Nat.strong_induction_on with
  | _ fuel ih =>
    intro l hl
    cases l with
    | nil => cases fuel <;> rfl
    | cons x rest =>
      cases fuel with
      | zero => simp at hl
      | succ f =>
        simp only [UTF8ToLatin1Go, List.length_cons]
        congr 1
        have hskip : 1 ≤ utf8Skip (x :: rest) := utf8Skip_pos x rest
        have hlen : ((x :: rest).drop (utf8Skip (x :: rest))).length ≤ rest.length := by
          simp only [List.length_drop, List.length_cons]
          omega
        have h1 : rest.length ≤ f := by
          simp only [List.length_cons] at hl
          omega
        rw [ih f (Nat.lt_succ_self f) _ (le_trans hlen h1),
            ih rest.length (Nat.lt_succ_of_le h1) _ hlen]

/-- One step of the transcoder loop, expressed on `UTF8ToLatin1`. -/
theorem UTF8ToLatin1_cons (x : Nat) (rest : List Nat) :
    UTF8ToLatin1 (x :: rest) =
      (if (utf8DecodeRune (x :: rest)).1 ≤ 0xFF then (utf8DecodeRune (x :: rest)).1 else 0x3F) ::
        UTF8ToLatin1 ((x :: rest).drop (utf8Skip (x :: rest))) := by
  have hskip : 1 ≤ utf8Skip (x :: rest) := utf8Skip_pos x rest
  have hlen : ((x :: rest).drop (utf8Skip (x :: rest))).length ≤ rest.length := by
    simp only [List.length_drop, List.length_cons]
    omega
  unfold UTF8ToLatin1
  simp only [List.length_cons, UTF8ToLatin1Go]
  congr 1
  exact UTF8ToLatin1Go_fuel rest.length _ hlen

theorem utf8DecodeRune_one (b : Nat) (tail : List Nat) (h : b < 0x80) :
    utf8DecodeRune (b :: tail) = (b, 1) := by
  simp [utf8DecodeRune, h]

theorem utf8DecodeRune_two (p0 b1 : Nat) (tail : List Nat)
    (h1 : 0xC2 ≤ p0) (h2 : p0 ≤ 0xDF) (h3 : 0x80 ≤ b1) (h4 : b1 ≤ 0xBF) :
    utf8DecodeRune (p0 :: b1 :: tail) = (p0 % 32 * 64 + b1 % 64, 2) := by
  have hlo : acceptLo p0 = 0x80 := by
    unfold acceptLo
    rw [if_neg (by omega), if_neg (by omega)]
  have hhi : acceptHi p0 = 0xBF := by
    unfold acceptHi
    rw [if_neg (by omega), if_neg (by omega)]
  have c1 : ¬ p0 < 0x80 := by omega
  have c2 : ¬ (p0 < 0xC2 ∨ 0xF4 < p0) := by omega
  have c3 : ¬ (b1 < acceptLo p0 ∨ acceptHi p0 < b1) := by
    rw [hlo, hhi]
    omega
  have c4 : p0 < 0xE0 := by omega
  simp [utf8DecodeRune, c1, c2, c3, c4]

theorem utf8EncodeRune_small (b : Nat) (h : b < 0x80) : utf8EncodeRune b = [b] := by
  simp [utf8EncodeRune, h]

theorem utf8EncodeRune_latin (b : Nat) (h1 : ¬ b < 0x80) (h2 : b < 256) :
    utf8EncodeRune b = [192 + b / 64, 128 + b % 64] := by
  unfold utf8EncodeRune
  rw [if_neg h1, if_pos (by omega)]

/-- Decoding the UTF-8 encoding of a Latin-1 code point recovers it. -/
theorem utf8_step (b : Nat) (hb : b < 256) (tail : List Nat) :
    UTF8ToLatin1 (utf8EncodeRune b ++ tail) = b :: UTF8ToLatin1 tail := by
  have hne : b ≠ RUNE_ERROR := by
    unfold RUNE_ERROR
    omega
  by_cases h1 : b < 0x80
  · rw [utf8EncodeRune_small b h1, List.singleton_append, UTF8ToLatin1_cons]
    have hd : utf8DecodeRune (b :: tail) = (b, 1) := utf8DecodeRune_one b tail h1
    have hskip : utf8Skip (b :: tail) = 1 := by
      rw [utf8Skip, hd]
      simp [hne]
    rw [hskip, hd]
    simp only [List.drop_succ_cons, List.drop_zero]
    rw [if_pos (by omega)]
  · rw [utf8EncodeRune_latin b h1 hb]
    have hq : b / 64 = 2 ∨ b / 64 = 3 := by omega
    have hd : utf8DecodeRune ((192 + b / 64) :: (128 + b % 64) :: tail) = (b, 2) := by
      rw [utf8DecodeRune_two (192 + b / 64) (128 + b % 64) tail
        (by omega) (by omega) (by omega) (by omega)]
      have : (192 + b / 64) % 32 * 64 + (128 + b % 64) % 64 = b := by omega
      rw [this]
    rw [List.cons_append, List.cons_append, List.nil_append, UTF8ToLatin1_cons]
    have hskip : utf8Skip ((192 + b / 64) :: (128 + b % 64) :: tail) = 2 := by
      rw [utf8Skip, hd]
      simp [hne]
    rw [hskip, hd]
    simp only [List.drop_succ_cons, List.drop_zero]
    rw [if_pos (by omega)]

/-! ## Claim C3 -/

/-- C3 counterexample: on the invalid one-byte sequence `[0x80]` the
transcoder emits the placeholder byte `'?'` (`0x3F`) for the skipped invalid
span, not no output byte as the claim states. -/
theorem C3_counterexample :
    UTF8ToLatin1 [0x80] = [0x3F] ∧ UTF8ToLatin1 [0x80] ≠ [] := by
  decide

/-- C3 (amended): whenever `UTF8ToLatin1` encounters an invalid byte
sequence it skips forward at least one byte, to the next valid leading byte,
and appends exactly one placeholder byte `'?'` for the skipped invalid span;
a validly decoded code point yields exactly one output byte, namely its
value if it is in `[0,255]` and the placeholder `'?'` otherwise. -/
theorem C3_amended (x : Nat) (rest : List Nat) :
    ((utf8DecodeRune (x :: rest)).1 = RUNE_ERROR →
      UTF8ToLatin1 (x :: rest) =
        0x3F :: UTF8ToLatin1 ((x :: rest).drop (UTF8FindNextLeadingByte (x :: rest))) ∧
      1 ≤ UTF8FindNextLeadingByte (x :: rest)) ∧
    ((utf8DecodeRune (x :: rest)).1 ≠ RUNE_ERROR →
      UTF8ToLatin1 (x :: rest) =
        (if (utf8DecodeRune (x :: rest)).1 ≤ 0xFF then (utf8DecodeRune (x :: rest)).1
          else 0x3F) ::
          UTF8ToLatin1 ((x :: rest).drop (utf8DecodeRune (x :: rest)).2)) := by
  constructor
  · intro herr
    constructor
    · rw [UTF8ToLatin1_cons]
      have hskip : utf8Skip (x :: rest) = UTF8FindNextLeadingByte (x :: rest) := by
        rw [utf8Skip, if_neg]
        simp [herr]
      rw [hskip, herr, if_neg]
      unfold RUNE_ERROR
      omega
    · simp [UTF8FindNextLeadingByte]
  · intro hok
    rw [UTF8ToLatin1_cons]
    have hskip : utf8Skip (x :: rest) = (utf8DecodeRune (x :: rest)).2 := by
      rw [utf8Skip, if_pos hok]
    rw [hskip]

/-- C3 amended, witness: the invalid span `[0x80]` (skip 1, emit one `'?'`)
and the valid code point `[0x41]` (emit `0x41`). -/
theorem C3_amended_witness :
    (UTF8ToLatin1 [0x80] =
        0x3F :: UTF8ToLatin1 ([0x80].drop (UTF8FindNextLeadingByte [0x80])) ∧
      1 ≤ UTF8FindNextLeadingByte [0x80]) ∧
    UTF8ToLatin1 [0x41] =
      (if (utf8DecodeRune [0x41]).1 ≤ 0xFF then (utf8DecodeRune [0x41]).1 else 0x3F) ::
        UTF8ToLatin1 ([0x41].drop (utf8DecodeRune [0x41]).2) :=
  ⟨(C3_amended 0x80 []).1 (by decide), (C3_amended 0x41 []).2 (by decide)⟩

/-! ## Claim C8 -/

/-- C8: for every byte slice (values 0-255), converting with `Latin1ToUTF8`
and back with `UTF8ToLatin1` yields exactly the original byte slice. -/
theorem C8_theorem (l : List Nat) (h : ∀ b ∈ l, b < 256) :
    UTF8ToLatin1 (Latin1ToUTF8 l) = l := by
  induction l with
  | nil => rfl
  | cons b rest ih =>
    simp only [Latin1ToUTF8]
    rw [utf8_step b (h b (by simp)) (Latin1ToUTF8 rest), ih]
    intro y hy
    exact h y (by simp [hy])

/-- C8 witness: a concrete round trip through both boundary bytes and a
two-byte-encoded value. -/
theorem C8_witness :
    UTF8ToLatin1 (Latin1ToUTF8 [0, 0x41, 0x7F, 0x80, 0xE9, 0xFF]) =
      [0, 0x41, 0x7F, 0x80, 0xE9, 0xFF] :=
  C8_theorem [0, 0x41, 0x7F, 0x80, 0xE9, 0xFF] (by decide)

end TibiaWeb

/-! ### Framing helpers -/

namespace TibiaWeb

theorem take_two_set (l : List Nat) (a b : Nat) (h : 2 ≤ l.length) :
    ((l.set 0 a).set 1 b).take 2 = [a, b] := by
  rcases l with _ | ⟨x, _ | ⟨y, rest⟩⟩
  · simp at h
  · simp at h
  · simp

theorem frameRequest_error_iff (wb : TWriteBuffer) :
    frameRequest wb = Except.error () ↔ wb.Position ≤ 2 := by
  unfold frameRequest
  split
  · simp_all
  · dsimp only
    split <;> (split <;> simp_all)

theorem frameRequest_small (wb : TWriteBuffer) (h2 : 2 < wb.Position)
    (hsmall : wb.Position - 2 < 0xFFFF) (hlen : wb.Position ≤ wb.Buffer.length) :
    frameRequest wb = Except.ok (some
      ⟨(wb.Buffer.set 0 ((wb.Position - 2) % 256)).set 1 ((wb.Position - 2) / 256 % 256),
        wb.Position⟩) := by
  simp [frameRequest, TWriteBuffer.Rewrite16, TWriteBuffer.Overflowed, hsmall,
    List.length_set, (by omega : ¬ wb.Position ≤ 2), (by omega : 2 ≤ wb.Position),
    (by omega : wb.Position ≤ wb.Buffer.length),
    (by omega : ¬ wb.Buffer.length < wb.Position)]
  rw [if_neg (by omega : ¬ wb.Position ≤ 2), if_neg (by omega : ¬ wb.Buffer.length < wb.Position)]

theorem frameRequest_big (wb : TWriteBuffer) (h2 : 2 + 0xFFFF ≤ wb.Position)
    (hlen : wb.Position + 4 ≤ wb.Buffer.length) :
    ∃ wb1, frameRequest wb = Except.ok (some wb1) ∧
      wb1.Buffer.take 6 = 255 :: 255 :: le32bytes (wb.Position - 2) ∧
      wb1.Position = wb.Position + 4 := by
  have hA : ¬ wb.Position ≤ 2 := by omega
  have hB : ¬ wb.Position - 2 < 0xFFFF := by omega
  have hR : wb.Rewrite16 0 0xFFFF = ⟨(wb.Buffer.set 0 255).set 1 255, wb.Position⟩ := by
    unfold TWriteBuffer.Rewrite16
    split
    · norm_num
    · rename_i hcond
      exfalso
      apply hcond
      refine ⟨by omega, ?_⟩
      simp [TWriteBuffer.Overflowed]
      omega
  have hlen1 : ((wb.Buffer.set 0 255).set 1 255).length = wb.Buffer.length := by
    simp [List.length_set]
  have hI : TWriteBuffer.Insert32 ⟨(wb.Buffer.set 0 255).set 1 255, wb.Position⟩ 2
      (wb.Position - 2) =
      ⟨((wb.Buffer.set 0 255).set 1 255).take 2 ++ le32bytes (wb.Position - 2) ++
          (((wb.Buffer.set 0 255).set 1 255).drop 2).take (wb.Buffer.length - 2 - 4),
        wb.Position + 4⟩ := by
    unfold TWriteBuffer.Insert32
    rw [if_pos (by omega : 2 ≤ wb.Position), if_pos]
    · rw [hlen1]
    · simp [TWriteBuffer.CanWrite, hlen1]
      omega
  refine ⟨⟨((wb.Buffer.set 0 255).set 1 255).take 2 ++ le32bytes (wb.Position - 2) ++
      (((wb.Buffer.set 0 255).set 1 255).drop 2).take (wb.Buffer.length - 2 - 4),
    wb.Position + 4⟩, ?_, ?_, ?_⟩
  · unfold frameRequest
    rw [if_neg hA]
    dsimp only
    rw [if_neg hB, hR, hI]
    split
    · rename_i hbad
      exfalso
      simp [TWriteBuffer.Overflowed, List.length_take, List.length_drop, List.length_append,
        hlen1, le32bytes] at hbad
      omega
    · rfl
  · show (((wb.Buffer.set 0 255).set 1 255).take 2 ++ le32bytes (wb.Position - 2) ++
      (((wb.Buffer.set 0 255).set 1 255).drop 2).take (wb.Buffer.length - 2 - 4)).take 6 =
      255 :: 255 :: le32bytes (wb.Position - 2)
    rw [take_two_set _ _ _ (by omega)]
    rw [List.append_assoc]
    rw [show ([255, 255] : List Nat) ++ (le32bytes (wb.Position - 2) ++
        (((wb.Buffer.set 0 255).set 1 255).drop 2).take (wb.Buffer.length - 2 - 4)) =
      255 :: 255 :: (le32bytes (wb.Position - 2) ++
        (((wb.Buffer.set 0 255).set 1 255).drop 2).take (wb.Buffer.length - 2 - 4)) from rfl]
    rw [show (6 : Nat) = 2 + 4 from rfl]
    simp only [List.take_succ_cons, List.take_zero]
    rw [show (2 + 2 : Nat) = (le32bytes (wb.Position - 2)).length from by
      simp [le32bytes]]
    rw [List.take_left]
  · rfl

end TibiaWeb

/-! ## Claim C1 -/

namespace TibiaWeb

/-- C1 counterexample: a failure while reading the response body on the
first attempt is surfaced immediately as the generic failure status with no
retry, even though the very same attempt-2 script (second conjunct) would
have produced a successful exchange with status `OK`. -/
theorem C1_counterexample :
    ExecuteQuery true ⟨List.replicate 16 0, 3⟩ true
        (fun a => if a = 1 then ⟨true, true, some (5, 0), none, none⟩
                  else ⟨true, true, some (1, 0), none, some [0]⟩) =
      Except.ok ⟨QUERY_STATUS_FAILED, false, ⟨[], 0⟩⟩ ∧
    ExecuteQuery true ⟨List.replicate 16 0, 3⟩ true
        (fun _ => ⟨true, true, some (1, 0), none, some [0]⟩) =
      Except.ok ⟨QUERY_STATUS_OK, true, ⟨List.replicate 16 0, 1⟩⟩ :=
  ⟨rfl, rfl⟩

/-- C1 (amended): transport failures at step (b) (writing the request) and
step (c) (reading the 16-bit response length) disconnect and are retried
exactly once, with only a failure on the second attempt surfaced as the
generic failure status; a failure at step (e) (reading the response body),
however, disconnects and is surfaced as the generic failure status
immediately, with no retry, whatever the second attempt would have done. -/
theorem C1_amended (wb wb1 : TWriteBuffer) (oracle : Nat → NetStep) (b0 : Nat)
    (brest : List Nat) (hframe : frameRequest wb = Except.ok (some wb1)) :
    ((oracle 1).writeOk = false → (oracle 2).connectOk = true →
      StepSucceeds wb1.Buffer.length (oracle 2) b0 brest →
      ExecuteQuery true wb true oracle =
        Except.ok ⟨b0, true, ⟨b0 :: brest ++ wb1.Buffer.drop (brest.length + 1), 1⟩⟩) ∧
    ((oracle 1).writeOk = true → (oracle 1).sizeBytes = none → (oracle 2).connectOk = true →
      StepSucceeds wb1.Buffer.length (oracle 2) b0 brest →
      ExecuteQuery true wb true oracle =
        Except.ok ⟨b0, true, ⟨b0 :: brest ++ wb1.Buffer.drop (brest.length + 1), 1⟩⟩) ∧
    ((oracle 1).writeOk = false → (oracle 2).connectOk = true → (oracle 2).writeOk = false →
      ExecuteQuery true wb true oracle = Except.ok ⟨QUERY_STATUS_FAILED, false, ⟨[], 0⟩⟩) ∧
    (∀ s0 s1, (oracle 1).writeOk = true → (oracle 1).sizeBytes = some (s0, s1) →
      readLE16 s0 s1 ≠ 0xFFFF → readLE16 s0 s1 ≠ 0 →
      readLE16 s0 s1 ≤ wb1.Buffer.length → (oracle 1).bodyBytes = none →
      ExecuteQuery true wb true oracle = Except.ok ⟨QUERY_STATUS_FAILED, false, ⟨[], 0⟩⟩) := by
  refine ⟨?_, ?_, ?_, ?_⟩
  · intro h1 h2 hs
    obtain ⟨hw, s0, s1, hsz, hne, hne0, hle, hbody⟩ := hs
    unfold ExecuteQuery
    rw [hframe]
    simp [execLoop, MAX_ATTEMPTS, h1, h2, hw, hsz, hne, hne0, Nat.not_lt.mpr hle, hbody,
      TReadBuffer.Read8]
  · intro h1 hsz1 h2 hs
    obtain ⟨hw, s0, s1, hsz, hne, hne0, hle, hbody⟩ := hs
    unfold ExecuteQuery
    rw [hframe]
    simp [execLoop, MAX_ATTEMPTS, h1, hsz1, h2, hw, hsz, hne, hne0, Nat.not_lt.mpr hle, hbody,
      TReadBuffer.Read8]
  · intro h1 h2 h3
    unfold ExecuteQuery
    rw [hframe]
    simp [execLoop, MAX_ATTEMPTS, h1, h2, h3]
  · intro s0 s1 h1 hsz hne hne0 hle hbody
    unfold ExecuteQuery
    rw [hframe]
    simp [execLoop, MAX_ATTEMPTS, h1, hsz, hne, hne0, Nat.not_lt.mpr hle, hbody]

/-- C1 amended, witness: a concrete first-attempt write failure whose retry
succeeds with status `OK`. -/
theorem C1_amended_witness :
    ExecuteQuery true ⟨List.replicate 16 0, 3⟩ true
        (fun a => if a = 1 then ⟨true, false, none, none, none⟩
                  else ⟨true, true, some (1, 0), none, some [0]⟩) =
      Except.ok ⟨0, true, ⟨List.replicate 16 0, 1⟩⟩ :=
  (C1_amended ⟨List.replicate 16 0, 3⟩ ⟨1 :: List.replicate 15 0, 3⟩ _ 0 [] (by rfl)).1
    (by rfl) (by rfl) ⟨by rfl, 1, 0, by rfl, by decide, by decide, by decide, by rfl⟩

end TibiaWeb

/-! ## Claim C2 -/

namespace TibiaWeb

/-- C2 counterexample: the spliced 32-bit extended length is written
little-endian by `Insert32` (bytes `4,3,2,1` for `0x01020304`), not
big-endian as the claim states (compare the spec-modelled big-endian
variant). -/
theorem C2_counterexample :
    (TWriteBuffer.Insert32 ⟨List.replicate 12 0, 6⟩ 2 0x01020304).Buffer =
      [0, 0, 4, 3, 2, 1, 0, 0, 0, 0, 0, 0] ∧
    (TWriteBuffer.Insert32 ⟨List.replicate 12 0, 6⟩ 2 0x01020304).Buffer ≠
      (TWriteBuffer.Insert32SpecBE ⟨List.replicate 12 0, 6⟩ 2 0x01020304).Buffer := by
  constructor
  · rfl
  · decide

/-- C2 (amended): the extended 32-bit length fields embedded inside framing
headers are little-endian like every other integer of the protocol:
(a) `Insert32` splices the little-endian bytes of its value;
(b) a request whose payload length is at least `0xFFFF` is framed as the
`0xFFFF` sentinel followed by the little-endian 32-bit real length;
(c) the little-endian byte quadruple round-trips through the executor's
32-bit read; and (d) when a response length prefix is the `0xFFFF` sentinel
the executor reads the following 32-bit real length little-endian
(`readLE32`) and uses it as the body size.  (The big-endian codec variants
`Read16BE`/`Read32BE`/`Write16BE`/`Write32BE` of `common.go` are called
nowhere in the repository.) -/
theorem C2_amended :
    (∀ (wb : TWriteBuffer) (pos v : Nat), pos ≤ wb.Position →
      wb.Position + 4 ≤ wb.Buffer.length →
      (wb.Insert32 pos v).Buffer =
        wb.Buffer.take pos ++ le32bytes v ++
          (wb.Buffer.drop pos).take (wb.Buffer.length - pos - 4)) ∧
    (∀ wb : TWriteBuffer, 2 + 0xFFFF ≤ wb.Position →
      wb.Position + 4 ≤ wb.Buffer.length →
      ∃ wb1, frameRequest wb = Except.ok (some wb1) ∧
        wb1.Buffer.take 6 = 255 :: 255 :: le32bytes (wb.Position - 2) ∧
        wb1.Position = wb.Position + 4) ∧
    (∀ v : Nat, v < 4294967296 →
      readLE32 (v % 256) (v / 256 % 256) (v / 65536 % 256) (v / 16777216 % 256) = v) ∧
    (∀ (wb wb1 : TWriteBuffer) (oracle : Nat → NetStep) (b0 : Nat) (brest : List Nat)
        (s0 s1 e0 e1 e2 e3 : Nat),
      frameRequest wb = Except.ok (some wb1) →
      (oracle 1).writeOk = true → (oracle 1).sizeBytes = some (s0, s1) →
      readLE16 s0 s1 = 0xFFFF → (oracle 1).extBytes = some (e0, e1, e2, e3) →
      readLE32 e0 e1 e2 e3 ≠ 0 → readLE32 e0 e1 e2 e3 ≤ wb1.Buffer.length →
      (oracle 1).bodyBytes = some (b0 :: brest) →
      ExecuteQuery true wb true oracle =
        Except.ok ⟨b0, true, ⟨b0 :: brest ++ wb1.Buffer.drop (brest.length + 1), 1⟩⟩) := by
  refine ⟨?_, ?_, ?_, ?_⟩
  · intro wb pos v hpos hlen
    unfold TWriteBuffer.Insert32
    rw [if_pos hpos, if_pos]
    simp [TWriteBuffer.CanWrite]
    omega
  · intro wb h2 hlen
    exact frameRequest_big wb h2 hlen
  · intro v hv
    simp [readLE32]
    omega
  · intro wb wb1 oracle b0 brest s0 s1 e0 e1 e2 e3 hframe hw hsz hle16 hext hne0 hle hbody
    unfold ExecuteQuery
    rw [hframe]
    simp [execLoop, MAX_ATTEMPTS, hw, hsz, hle16, hext, hne0, Nat.not_lt.mpr hle, hbody,
      TReadBuffer.Read8]

/-- C2 amended, witness: the layout conjunct at a concrete buffer and the
little-endian 32-bit round trip at a concrete value. -/
theorem C2_amended_witness :
    (TWriteBuffer.Insert32 ⟨List.replicate 12 0, 6⟩ 2 0x01020304).Buffer =
      (List.replicate 12 0).take 2 ++ le32bytes 0x01020304 ++
        ((List.replicate 12 0).drop 2).take ((List.replicate 12 0).length - 2 - 4) ∧
    readLE32 (0x01020304 % 256) (0x01020304 / 256 % 256) (0x01020304 / 65536 % 256)
        (0x01020304 / 16777216 % 256) = 0x01020304 :=
  ⟨C2_amended.1 ⟨List.replicate 12 0, 6⟩ 2 0x01020304 (by decide) (by decide),
   C2_amended.2.2.1 0x01020304 (by decide)⟩

end TibiaWeb

/-! ## Claim C7 -/

namespace TibiaWeb

/-- C7 counterexample: a request buffer with exactly 2 bytes written (just
the 2-byte placeholder header) still panics, refuting the claim that at
least 2 bytes written suffices to proceed. -/
theorem C7_counterexample :
    frameRequest ⟨[0, 0, 0, 0], 2⟩ = Except.error () ∧
    ExecuteQuery true ⟨[0, 0, 0, 0], 2⟩ true (fun _ => ⟨true, true, none, none, none⟩) =
      Except.error () :=
  ⟨rfl, rfl⟩

/-- C7 (amended): `ExecuteQuery` treats a caller defect as fatal (panics)
exactly when at most 2 bytes have been written to the request buffer (the
2-byte placeholder alone is not enough); for every request buffer with at
least 3 bytes written it does not panic, and it computes the payload length
as bytes written minus 2 and patches it into the header (little-endian, in
the direct 16-bit form when it is below `0xFFFF`). -/
theorem C7_amended :
    (∀ wb : TWriteBuffer, frameRequest wb = Except.error () ↔ wb.Position ≤ 2) ∧
    (∀ (wb : TWriteBuffer) (autoReconnect conn : Bool) (oracle : Nat → NetStep),
      ExecuteQuery autoReconnect wb conn oracle = Except.error () ↔ wb.Position ≤ 2) ∧
    (∀ wb : TWriteBuffer, 2 < wb.Position → wb.Position - 2 < 0xFFFF →
      wb.Position ≤ wb.Buffer.length →
      frameRequest wb = Except.ok (some
        ⟨(wb.Buffer.set 0 ((wb.Position - 2) % 256)).set 1 ((wb.Position - 2) / 256 % 256),
          wb.Position⟩) ∧
      ((wb.Buffer.set 0 ((wb.Position - 2) % 256)).set 1
          ((wb.Position - 2) / 256 % 256)).take 2 = le16bytes (wb.Position - 2)) := by
  refine ⟨frameRequest_error_iff, ?_, ?_⟩
  · intro wb autoReconnect conn oracle
    rw [← frameRequest_error_iff wb]
    unfold ExecuteQuery
    rcases hf : frameRequest wb with u | o
    · cases u
      simp
    · rcases o with _ | wb1 <;> simp
  · intro wb h2 hsmall hlen
    exact ⟨frameRequest_small wb h2 hsmall hlen, take_two_set _ _ _ (by omega)⟩

/-- C7 amended, witness: a 3-byte request does not panic and gets payload
length 1 patched into its header. -/
theorem C7_amended_witness :
    frameRequest ⟨[0, 0, 0, 0, 0], 3⟩ = Except.ok (some
      ⟨(([0, 0, 0, 0, 0] : List Nat).set 0 ((3 - 2) % 256)).set 1 ((3 - 2) / 256 % 256), 3⟩) ∧
    ((([0, 0, 0, 0, 0] : List Nat).set 0 ((3 - 2) % 256)).set 1 ((3 - 2) / 256 % 256)).take 2 =
      le16bytes (3 - 2) :=
  C7_amended.2.2 ⟨[0, 0, 0, 0, 0], 3⟩ (by decide) (by decide) (by decide)

end TibiaWeb

/-! ## Cache scan lemmas -/

namespace TibiaWeb

theorem getD_map_lt {α : Type} (f : α → α) (l : List α) :
    ∀ (n : Nat) (d : α), n < l.length → (l.map f).getD n d = f (l.getD n d) := by
  induction l with
  | nil => intro n d h; simp at h
  | cons x rest ih =>
    intro n d h
    cases n with
    | zero => rfl
    | succ m =>
      simp only [List.map_cons, List.getD_cons_succ]
      exact ih m d (by simpa using h)

theorem cacheScan_none_swept {α : Type} (sweepOne : α → α) (getTime : α → Nat)
    (keyMatch : α → Bool) (es : List α) : ∀ (i acc accT : Nat),
    (cacheScan sweepOne getTime keyMatch es i acc accT).found = none →
    (cacheScan sweepOne getTime keyMatch es i acc accT).swept = es.map sweepOne := by
  induction es with
  | nil => intro i acc accT _; rfl
  | cons e rest ih =>
    intro i acc accT h
    by_cases hm : keyMatch (sweepOne e) = true
    · simp [cacheScan, hm] at h
    · simp only [Bool.not_eq_true] at hm
      simp only [cacheScan, hm, Bool.false_eq_true, if_false] at h ⊢
      simp only [List.map_cons, List.cons_inj_right]
      exact ih _ _ _ h

theorem cacheScan_none_of {α : Type} (sweepOne : α → α) (getTime : α → Nat)
    (keyMatch : α → Bool) (es : List α) : ∀ (i acc accT : Nat),
    (∀ e ∈ es, keyMatch (sweepOne e) = false) →
    (cacheScan sweepOne getTime keyMatch es i acc accT).found = none := by
  induction es with
  | nil => intro i acc accT _; rfl
  | cons e rest ih =>
    intro i acc accT h
    have h0 : keyMatch (sweepOne e) = false := h e (by simp)
    simp only [cacheScan, h0, Bool.false_eq_true, if_false]
    exact ih _ _ _ (fun x hx => h x (by simp [hx]))

theorem cacheScan_found_some {α : Type} (sweepOne : α → α) (getTime : α → Nat)
    (keyMatch : α → Bool) (es : List α) : ∀ (i acc accT : Nat),
    (∃ e ∈ es, keyMatch (sweepOne e) = true) →
    ∃ j, (cacheScan sweepOne getTime keyMatch es i acc accT).found = some j := by
  induction es with
  | nil =>
    intro i acc accT h
    simp at h
  | cons e rest ih =>
    intro i acc accT h
    by_cases hm : keyMatch (sweepOne e) = true
    · exact ⟨i, by simp [cacheScan, hm]⟩
    · simp only [Bool.not_eq_true] at hm
      obtain ⟨x, hx, hxm⟩ := h
      rcases List.mem_cons.mp hx with rfl | hx2
      · rw [hm] at hxm
        exact absurd hxm (by simp)
      · obtain ⟨j, hj⟩ := ih (i + 1) (if getTime (sweepOne e) < accT then i else acc)
          (if getTime (sweepOne e) < accT then getTime (sweepOne e) else accT) ⟨x, hx2, hxm⟩
        refine ⟨j, ?_⟩
        simp only [cacheScan, hm, Bool.false_eq_true, if_false]
        exact hj

theorem cacheScan_found_spec {α : Type} (d : α) (sweepOne : α → α) (getTime : α → Nat)
    (keyMatch : α → Bool) (es : List α) : ∀ (i acc accT j : Nat),
    (cacheScan sweepOne getTime keyMatch es i acc accT).found = some j →
    i ≤ j ∧ j - i < es.length ∧
    (cacheScan sweepOne getTime keyMatch es i acc accT).swept.getD (j - i) d =
      sweepOne (es.getD (j - i) d) ∧
    keyMatch (sweepOne (es.getD (j - i) d)) = true := by
  induction es with
  | nil =>
    intro i acc accT j h
    simp [cacheScan] at h
  | cons e rest ih =>
    intro i acc accT j h
    by_cases hm : keyMatch (sweepOne e) = true
    · simp only [cacheScan, hm, if_true] at h ⊢
      obtain rfl : j = i := by simpa using h.symm
      refine ⟨Nat.le_refl _, by simp, ?_, ?_⟩
      · simp [Nat.sub_self]
      · simp [Nat.sub_self, hm]
    · simp only [Bool.not_eq_true] at hm
      simp only [cacheScan, hm, Bool.false_eq_true, if_false] at h ⊢
      obtain ⟨h1, h2, h3, h4⟩ := ih _ _ _ _ h
      have hji : i + 1 ≤ j := h1
      have hsub : j - i = (j - (i + 1)) + 1 := by omega
      refine ⟨by omega, by simp; omega, ?_, ?_⟩
      · rw [hsub]
        simpa using h3
      · rw [hsub]
        simpa using h4

end TibiaWeb

namespace TibiaWeb

/-- Characterization of the least-recently-used tracking of the scan loop
on a miss: either the initial accumulator never got beaten (and bounds
every post-sweep slot time from below), or the result points at a slot
whose post-sweep time is minimal, strictly below the accumulator and every
earlier slot (ties keep the earliest index). -/
theorem cacheScan_none_lru {α : Type} (d : α) (sweepOne : α → α) (getTime : α → Nat)
    (keyMatch : α → Bool) (es : List α) : ∀ (i acc accT : Nat),
    (cacheScan sweepOne getTime keyMatch es i acc accT).found = none →
    ((cacheScan sweepOne getTime keyMatch es i acc accT).lruIdx = acc ∧
      (cacheScan sweepOne getTime keyMatch es i acc accT).lruTime = accT ∧
      ∀ k, k < es.length → accT ≤ getTime (sweepOne (es.getD k d))) ∨
    (∃ k, k < es.length ∧
      (cacheScan sweepOne getTime keyMatch es i acc accT).lruIdx = i + k ∧
      (cacheScan sweepOne getTime keyMatch es i acc accT).lruTime =
        getTime (sweepOne (es.getD k d)) ∧
      (cacheScan sweepOne getTime keyMatch es i acc accT).lruTime < accT ∧
      (∀ m, m < es.length →
        (cacheScan sweepOne getTime keyMatch es i acc accT).lruTime ≤
          getTime (sweepOne (es.getD m d))) ∧
      (∀ m, m < k →
        (cacheScan sweepOne getTime keyMatch es i acc accT).lruTime <
          getTime (sweepOne (es.getD m d)))) := by
  induction es with
  | nil =>
    intro i acc accT _
    left
    exact ⟨rfl, rfl, by simp⟩
  | cons e rest ih =>
    intro i acc accT h
    by_cases hm : keyMatch (sweepOne e) = true
    · simp [cacheScan, hm] at h
    · simp only [Bool.not_eq_true] at hm
      simp only [cacheScan, hm, Bool.false_eq_true, if_false] at h ⊢
      by_cases ht : getTime (sweepOne e) < accT
      · rw [if_pos ht, if_pos ht] at h ⊢
        rcases ih (i + 1) i (getTime (sweepOne e)) h with ⟨A1, A2, A3⟩ | ⟨k, hk, B1, B2, B3, B4, B5⟩
        · right
          refine ⟨0, by simp, by simpa using A1, by simpa using A2, ?_, ?_, ?_⟩
          · rw [A2]; exact ht
          · intro m hm2
            cases m with
            | zero => simp [A2]
            | succ m' =>
              simp only [List.getD_cons_succ]
              rw [A2]
              exact A3 m' (by simpa using hm2)
          · intro m hm2
            omega
        · right
          refine ⟨k + 1, by simpa using hk, by rw [B1]; omega, by simpa using B2, ?_, ?_, ?_⟩
          · omega
          · intro m hm2
            cases m with
            | zero =>
              simp only [List.getD_cons_zero]
              omega
            | succ m' =>
              simp only [List.getD_cons_succ]
              exact B4 m' (by simpa using hm2)
          · intro m hm2
            cases m with
            | zero =>
              simp only [List.getD_cons_zero]
              omega
            | succ m' =>
              simp only [List.getD_cons_succ]
              exact B5 m' (by omega)
      · rw [if_neg ht, if_neg ht] at h ⊢
        rcases ih (i + 1) acc accT h with ⟨A1, A2, A3⟩ | ⟨k, hk, B1, B2, B3, B4, B5⟩
        · left
          refine ⟨A1, A2, ?_⟩
          intro m hm2
          cases m with
          | zero =>
            simp only [List.getD_cons_zero]
            omega
          | succ m' =>
            simp only [List.getD_cons_succ]
            exact A3 m' (by simpa using hm2)
        · right
          refine ⟨k + 1, by simpa using hk, by rw [B1]; omega, by simpa using B2, B3, ?_, ?_⟩
          · intro m hm2
            cases m with
            | zero =>
              simp only [List.getD_cons_zero]
              omega
            | succ m' =>
              simp only [List.getD_cons_succ]
              exact B4 m' (by simpa using hm2)
          · intro m hm2
            cases m with
            | zero =>
              simp only [List.getD_cons_zero]
              omega
            | succ m' =>
              simp only [List.getD_cons_succ]
              exact B5 m' (by omega)

end TibiaWeb

namespace TibiaWeb

/-- On a miss, the slot the scan selects for reuse is the one whose
post-sweep last-access time is minimal, with ties broken by the lowest
index — provided the sweep can only keep a slot's time or zero it. -/
theorem cacheScan_lru_argmin {α : Type} (d : α) (sweepOne : α → α) (getTime : α → Nat)
    (keyMatch : α → Bool)
    (hsw : ∀ e, getTime (sweepOne e) = getTime e ∨ getTime (sweepOne e) = 0)
    (e0 : α) (rest : List α)
    (hnone : (cacheScan sweepOne getTime keyMatch (e0 :: rest) 0 0 (getTime e0)).found = none) :
    (cacheScan sweepOne getTime keyMatch (e0 :: rest) 0 0 (getTime e0)).lruIdx <
      (e0 :: rest).length ∧
    (∀ m, m < (e0 :: rest).length →
      getTime (((e0 :: rest).map sweepOne).getD
          (cacheScan sweepOne getTime keyMatch (e0 :: rest) 0 0 (getTime e0)).lruIdx d) ≤
        getTime (((e0 :: rest).map sweepOne).getD m d)) ∧
    (∀ m, m < (cacheScan sweepOne getTime keyMatch (e0 :: rest) 0 0 (getTime e0)).lruIdx →
      getTime (((e0 :: rest).map sweepOne).getD
          (cacheScan sweepOne getTime keyMatch (e0 :: rest) 0 0 (getTime e0)).lruIdx d) <
        getTime (((e0 :: rest).map sweepOne).getD m d)) := by
  have hlen : ∀ m, m < (e0 :: rest).length →
      ((e0 :: rest).map sweepOne).getD m d = sweepOne ((e0 :: rest).getD m d) :=
    fun m hm => getD_map_lt sweepOne (e0 :: rest) m d hm
  rcases cacheScan_none_lru d sweepOne getTime keyMatch (e0 :: rest) 0 0 (getTime e0) hnone
    with ⟨A1, A2, A3⟩ | ⟨k, hk, B1, B2, B3, B4, B5⟩
  · have h0 : (0 : Nat) < (e0 :: rest).length := by simp
    have ht0 : getTime (sweepOne e0) = getTime e0 := by
      rcases hsw e0 with h | h
      · exact h
      · have := A3 0 h0
        simp only [List.getD_cons_zero] at this
        omega
    rw [A1]
    refine ⟨h0, ?_, ?_⟩
    · intro m hm
      rw [hlen 0 h0, hlen m hm]
      simp only [List.getD_cons_zero]
      rw [ht0]
      exact A3 m hm
    · intro m hm
      omega
  · rw [B1]
    simp only [Nat.zero_add]
    refine ⟨hk, ?_, ?_⟩
    · intro m hm
      rw [hlen k hk, hlen m hm]
      have := B4 m hm
      omega
    · intro m hm
      rw [hlen k hk, hlen m (by omega)]
      have := B5 m hm
      omega

/-- A cache whose live entries all miss the key makes the scan miss. -/
theorem accountScan_none (now interval : Nat) (accountID : Int)
    (e0 : TAccountCacheEntry) (tail : List TAccountCacheEntry)
    (hid : accountID ≠ 0) (hmiss : ∀ e ∈ e0 :: tail, e.AccountID ≠ accountID) :
    (cacheScan (sweepAccount now interval) (fun e => e.LastAccess)
      (fun e => e.AccountID == accountID) (e0 :: tail) 0 0 e0.LastAccess).found = none := by
  apply cacheScan_none_of
  intro e he
  unfold sweepAccount
  split
  · simp only [zeroAccountEntry, beq_eq_false_iff_ne, ne_eq]
    exact fun h => hid h.symm
  · simp only [beq_eq_false_iff_ne, ne_eq]
    exact hmiss e he

theorem characterScan_none (now interval : Nat) (name : String)
    (e0 : TCharacterCacheEntry) (tail : List TCharacterCacheEntry)
    (hzero : EqualFold "" name = false)
    (hmiss : ∀ e ∈ e0 :: tail, EqualFold e.CharacterName name = false) :
    (cacheScan (sweepCharacter now interval) (fun e => e.LastAccess)
      (fun e => EqualFold e.CharacterName name) (e0 :: tail) 0 0 e0.LastAccess).found =
      none := by
  apply cacheScan_none_of
  intro e he
  unfold sweepCharacter
  split
  · exact hzero
  · exact hmiss e he

/-- Sweeping changes no entry when every slot is within the refresh
interval. -/
theorem sweepAccount_fresh (now interval : Nat) (l : List TAccountCacheEntry)
    (h : ∀ e ∈ l, now - e.LastAccess < interval) :
    l.map (sweepAccount now interval) = l := by
  induction l with
  | nil => rfl
  | cons e rest ih =>
    simp only [List.map_cons]
    rw [show sweepAccount now interval e = e from by
      unfold sweepAccount
      rw [if_neg (by have := h e (by simp); omega)]]
    rw [ih (fun x hx => h x (by simp [hx]))]

theorem sweepCharacter_fresh (now interval : Nat) (l : List TCharacterCacheEntry)
    (h : ∀ e ∈ l, now - e.LastAccess < interval) :
    l.map (sweepCharacter now interval) = l := by
  induction l with
  | nil => rfl
  | cons e rest ih =>
    simp only [List.map_cons]
    rw [show sweepCharacter now interval e = e from by
      unfold sweepCharacter
      rw [if_neg (by have := h e (by simp); omega)]]
    rw [ih (fun x hx => h x (by simp [hx]))]

end TibiaWeb

namespace TibiaWeb

theorem GetAccountSummary_miss_eq (N now interval : Nat)
    (backend : Int → Int × TAccountSummary) (e0 : TAccountCacheEntry)
    (tail : List TAccountCacheEntry) (accountID : Int)
    (hnone : (cacheScan (sweepAccount now interval) (fun e => e.LastAccess)
      (fun e => e.AccountID == accountID) (e0 :: tail) 0 0 e0.LastAccess).found = none) :
    GetAccountSummary N now interval backend (e0 :: tail) accountID =
      if (backend accountID).1 = 0 then
        some ⟨(backend accountID).1, (backend accountID).2,
          (cacheScan (sweepAccount now interval) (fun e => e.LastAccess)
              (fun e => e.AccountID == accountID) (e0 :: tail) 0 0 e0.LastAccess).swept.set
            (cacheScan (sweepAccount now interval) (fun e => e.LastAccess)
              (fun e => e.AccountID == accountID) (e0 :: tail) 0 0 e0.LastAccess).lruIdx
            { (cacheScan (sweepAccount now interval) (fun e => e.LastAccess)
                (fun e => e.AccountID == accountID) (e0 :: tail) 0 0
                e0.LastAccess).swept.getD
                (cacheScan (sweepAccount now interval) (fun e => e.LastAccess)
                  (fun e => e.AccountID == accountID) (e0 :: tail) 0 0
                  e0.LastAccess).lruIdx zeroAccountEntry with
              AccountID := accountID, Data := (backend accountID).2, LastAccess := now },
          true⟩
      else
        some ⟨(backend accountID).1, (backend accountID).2,
          (cacheScan (sweepAccount now interval) (fun e => e.LastAccess)
            (fun e => e.AccountID == accountID) (e0 :: tail) 0 0 e0.LastAccess).swept,
          true⟩ := by
  unfold GetAccountSummary
  rw [if_neg (by simp : ¬(e0 :: tail = []))]
  dsimp only
  rw [hnone]

theorem GetAccountSummary_hit_eq (N now interval : Nat)
    (backend : Int → Int × TAccountSummary) (e0 : TAccountCacheEntry)
    (tail : List TAccountCacheEntry) (accountID : Int) (j : Nat)
    (hfound : (cacheScan (sweepAccount now interval) (fun e => e.LastAccess)
      (fun e => e.AccountID == accountID) (e0 :: tail) 0 0 e0.LastAccess).found = some j) :
    GetAccountSummary N now interval backend (e0 :: tail) accountID =
      some ⟨0,
        ((cacheScan (sweepAccount now interval) (fun e => e.LastAccess)
          (fun e => e.AccountID == accountID) (e0 :: tail) 0 0
          e0.LastAccess).swept.getD j zeroAccountEntry).Data,
        (cacheScan (sweepAccount now interval) (fun e => e.LastAccess)
          (fun e => e.AccountID == accountID) (e0 :: tail) 0 0 e0.LastAccess).swept.set j
          { (cacheScan (sweepAccount now interval) (fun e => e.LastAccess)
              (fun e => e.AccountID == accountID) (e0 :: tail) 0 0
              e0.LastAccess).swept.getD j zeroAccountEntry with LastAccess := now },
        false⟩ := by
  unfold GetAccountSummary
  rw [if_neg (by simp : ¬(e0 :: tail = []))]
  dsimp only
  rw [hfound]

theorem GetCharacterProfile_miss_eq (N now interval : Nat)
    (backend : String → Int × TCharacterProfile) (e0 : TCharacterCacheEntry)
    (tail : List TCharacterCacheEntry) (name : String)
    (hnone : (cacheScan (sweepCharacter now interval) (fun e => e.LastAccess)
      (fun e => EqualFold e.CharacterName name) (e0 :: tail) 0 0 e0.LastAccess).found =
      none) :
    GetCharacterProfile N now interval backend (e0 :: tail) name =
      some ⟨(backend name).1, (backend name).2,
        (cacheScan (sweepCharacter now interval) (fun e => e.LastAccess)
          (fun e => EqualFold e.CharacterName name) (e0 :: tail) 0 0
          e0.LastAccess).swept.set
          (cacheScan (sweepCharacter now interval) (fun e => e.LastAccess)
            (fun e => EqualFold e.CharacterName name) (e0 :: tail) 0 0
            e0.LastAccess).lruIdx
          ⟨name, (backend name).1, (backend name).2, now⟩, true⟩ := by
  unfold GetCharacterProfile
  rw [if_neg (by simp : ¬(e0 :: tail = []))]
  dsimp only
  rw [hnone]

theorem GetCharacterProfile_hit_eq (N now interval : Nat)
    (backend : String → Int × TCharacterProfile) (e0 : TCharacterCacheEntry)
    (tail : List TCharacterCacheEntry) (name : String) (j : Nat)
    (hfound : (cacheScan (sweepCharacter now interval) (fun e => e.LastAccess)
      (fun e => EqualFold e.CharacterName name) (e0 :: tail) 0 0 e0.LastAccess).found =
      some j) :
    GetCharacterProfile N now interval backend (e0 :: tail) name =
      some ⟨((cacheScan (sweepCharacter now interval) (fun e => e.LastAccess)
          (fun e => EqualFold e.CharacterName name) (e0 :: tail) 0 0
          e0.LastAccess).swept.getD j zeroCharacterEntry).Result,
        ((cacheScan (sweepCharacter now interval) (fun e => e.LastAccess)
          (fun e => EqualFold e.CharacterName name) (e0 :: tail) 0 0
          e0.LastAccess).swept.getD j zeroCharacterEntry).Data,
        (cacheScan (sweepCharacter now interval) (fun e => e.LastAccess)
          (fun e => EqualFold e.CharacterName name) (e0 :: tail) 0 0
          e0.LastAccess).swept.set j
          { (cacheScan (sweepCharacter now interval) (fun e => e.LastAccess)
              (fun e => EqualFold e.CharacterName name) (e0 :: tail) 0 0
              e0.LastAccess).swept.getD j zeroCharacterEntry with LastAccess := now },
        false⟩ := by
  unfold GetCharacterProfile
  rw [if_neg (by simp : ¬(e0 :: tail = []))]
  dsimp only
  rw [hfound]

end TibiaWeb

namespace TibiaWeb

theorem sweepAccount_keeps_time (now interval : Nat) :
    ∀ e : TAccountCacheEntry, (sweepAccount now interval e).LastAccess = e.LastAccess ∨
      (sweepAccount now interval e).LastAccess = 0 := by
  intro e
  unfold sweepAccount
  split
  · right
    rfl
  · left
    rfl

theorem sweepCharacter_keeps_time (now interval : Nat) :
    ∀ e : TCharacterCacheEntry, (sweepCharacter now interval e).LastAccess = e.LastAccess ∨
      (sweepCharacter now interval e).LastAccess = 0 := by
  intro e
  unfold sweepCharacter
  split
  · right
    rfl
  · left
    rfl

theorem sweepAccount_id_ne (now interval : Nat) (accountID : Int)
    (l : List TAccountCacheEntry) (hid : accountID ≠ 0)
    (hmiss : ∀ e ∈ l, e.AccountID ≠ accountID) :
    ∀ e' ∈ l.map (sweepAccount now interval), e'.AccountID ≠ accountID := by
  intro e' he'
  obtain ⟨e, he, rfl⟩ := List.mem_map.mp he'
  unfold sweepAccount
  split
  · simp only [zeroAccountEntry]
    exact fun h => hid h.symm
  · exact hmiss e he

theorem GetAccountSummary_miss_queries (N now interval : Nat)
    (backend : Int → Int × TAccountSummary) (e0 : TAccountCacheEntry)
    (tail : List TAccountCacheEntry) (accountID : Int)
    (hid : accountID ≠ 0) (hmiss : ∀ e ∈ e0 :: tail, e.AccountID ≠ accountID) :
    ∃ res, GetAccountSummary N now interval backend (e0 :: tail) accountID = some res ∧
      res.BackendQueried = true := by
  have hnone := accountScan_none now interval accountID e0 tail hid hmiss
  rw [GetAccountSummary_miss_eq N now interval backend e0 tail accountID hnone]
  by_cases hb : (backend accountID).1 = 0
  · rw [if_pos hb]
    exact ⟨_, rfl, rfl⟩
  · rw [if_neg hb]
    exact ⟨_, rfl, rfl⟩

end TibiaWeb

/-! ## Claim C5 -/

namespace TibiaWeb

/-- C5: for the bounded recency caches, a miss that inserts overwrites
exactly the slot whose (post-sweep) last-access timestamp is oldest, an
empty slot's zero timestamp always winning and ties broken by the lowest
scan index; and when every slot is within the refresh interval the sweep
changes nothing, so the timestamps compared are the stored ones.  In the
claim's scenario of N+1 misses on distinct keys with strictly increasing
access times within the refresh interval, the (N+1)-th insertion therefore
lands on the least-recently-accessed slot. -/
theorem C5_theorem :
    (∀ (N now interval : Nat) (backend : Int → Int × TAccountSummary)
      (e0 : TAccountCacheEntry) (tail : List TAccountCacheEntry) (accountID : Int)
      (data : TAccountSummary),
      accountID ≠ 0 →
      (∀ e ∈ e0 :: tail, e.AccountID ≠ accountID) →
      backend accountID = (0, data) →
      ∃ i, i < (e0 :: tail).length ∧
        GetAccountSummary N now interval backend (e0 :: tail) accountID =
          some ⟨0, data,
            ((e0 :: tail).map (sweepAccount now interval)).set i
              { ((e0 :: tail).map (sweepAccount now interval)).getD i zeroAccountEntry with
                AccountID := accountID, Data := data, LastAccess := now }, true⟩ ∧
        (∀ m, m < (e0 :: tail).length →
          (((e0 :: tail).map (sweepAccount now interval)).getD i zeroAccountEntry).LastAccess ≤
            (((e0 :: tail).map (sweepAccount now interval)).getD m
              zeroAccountEntry).LastAccess) ∧
        (∀ m, m < i →
          (((e0 :: tail).map (sweepAccount now interval)).getD i zeroAccountEntry).LastAccess <
            (((e0 :: tail).map (sweepAccount now interval)).getD m
              zeroAccountEntry).LastAccess) ∧
        ((∀ e ∈ e0 :: tail, now - e.LastAccess < interval) →
          (e0 :: tail).map (sweepAccount now interval) = e0 :: tail)) ∧
    (∀ (N now interval : Nat) (backend : String → Int × TCharacterProfile)
      (e0 : TCharacterCacheEntry) (tail : List TCharacterCacheEntry) (name : String)
      (result : Int) (ch : TCharacterProfile),
      EqualFold "" name = false →
      (∀ e ∈ e0 :: tail, EqualFold e.CharacterName name = false) →
      backend name = (result, ch) →
      ∃ i, i < (e0 :: tail).length ∧
        GetCharacterProfile N now interval backend (e0 :: tail) name =
          some ⟨result, ch,
            ((e0 :: tail).map (sweepCharacter now interval)).set i ⟨name, result, ch, now⟩,
            true⟩ ∧
        (∀ m, m < (e0 :: tail).length →
          (((e0 :: tail).map (sweepCharacter now interval)).getD i
              zeroCharacterEntry).LastAccess ≤
            (((e0 :: tail).map (sweepCharacter now interval)).getD m
              zeroCharacterEntry).LastAccess) ∧
        (∀ m, m < i →
          (((e0 :: tail).map (sweepCharacter now interval)).getD i
              zeroCharacterEntry).LastAccess <
            (((e0 :: tail).map (sweepCharacter now interval)).getD m
              zeroCharacterEntry).LastAccess) ∧
        ((∀ e ∈ e0 :: tail, now - e.LastAccess < interval) →
          (e0 :: tail).map (sweepCharacter now interval) = e0 :: tail)) := by
  constructor
  · intro N now interval backend e0 tail accountID data hid hmiss hbackend
    have hnone := accountScan_none now interval accountID e0 tail hid hmiss
    have hswept := cacheScan_none_swept (sweepAccount now interval) (fun e => e.LastAccess)
      (fun e => e.AccountID == accountID) (e0 :: tail) 0 0 e0.LastAccess hnone
    have hargmin := cacheScan_lru_argmin zeroAccountEntry (sweepAccount now interval)
      (fun e => e.LastAccess) (fun e => e.AccountID == accountID)
      (sweepAccount_keeps_time now interval) e0 tail hnone
    refine ⟨_, hargmin.1, ?_, hargmin.2.1, hargmin.2.2,
      sweepAccount_fresh now interval (e0 :: tail)⟩
    rw [GetAccountSummary_miss_eq N now interval backend e0 tail accountID hnone, hbackend]
    rw [if_pos rfl, hswept]
  · intro N now interval backend e0 tail name result ch hzero hmiss hbackend
    have hnone := characterScan_none now interval name e0 tail hzero hmiss
    have hswept := cacheScan_none_swept (sweepCharacter now interval) (fun e => e.LastAccess)
      (fun e => EqualFold e.CharacterName name) (e0 :: tail) 0 0 e0.LastAccess hnone
    have hargmin := cacheScan_lru_argmin zeroCharacterEntry (sweepCharacter now interval)
      (fun e => e.LastAccess) (fun e => EqualFold e.CharacterName name)
      (sweepCharacter_keeps_time now interval) e0 tail hnone
    refine ⟨_, hargmin.1, ?_, hargmin.2.1, hargmin.2.2,
      sweepCharacter_fresh now interval (e0 :: tail)⟩
    rw [GetCharacterProfile_miss_eq N now interval backend e0 tail name hnone, hbackend]
    rw [hswept]

/-- C5 witness: concrete one-slot caches where the miss inserts into the
(unique, hence oldest) slot. -/
theorem C5_theorem_witness :
    (∃ i, i < ([⟨5, 0, zeroAccountSummary, 10⟩] : List TAccountCacheEntry).length ∧
      GetAccountSummary 1 11 100 (fun _ => (0, zeroAccountSummary))
          [⟨5, 0, zeroAccountSummary, 10⟩] 7 =
        some ⟨0, zeroAccountSummary,
          (([⟨5, 0, zeroAccountSummary, 10⟩] : List TAccountCacheEntry).map
              (sweepAccount 11 100)).set i
            { (([⟨5, 0, zeroAccountSummary, 10⟩] : List TAccountCacheEntry).map
                  (sweepAccount 11 100)).getD i zeroAccountEntry with
              AccountID := 7, Data := zeroAccountSummary, LastAccess := 11 }, true⟩ ∧
      (∀ m, m < ([⟨5, 0, zeroAccountSummary, 10⟩] : List TAccountCacheEntry).length →
        ((([⟨5, 0, zeroAccountSummary, 10⟩] : List TAccountCacheEntry).map
            (sweepAccount 11 100)).getD i zeroAccountEntry).LastAccess ≤
          ((([⟨5, 0, zeroAccountSummary, 10⟩] : List TAccountCacheEntry).map
            (sweepAccount 11 100)).getD m zeroAccountEntry).LastAccess) ∧
      (∀ m, m < i →
        ((([⟨5, 0, zeroAccountSummary, 10⟩] : List TAccountCacheEntry).map
            (sweepAccount 11 100)).getD i zeroAccountEntry).LastAccess <
          ((([⟨5, 0, zeroAccountSummary, 10⟩] : List TAccountCacheEntry).map
            (sweepAccount 11 100)).getD m zeroAccountEntry).LastAccess) ∧
      ((∀ e ∈ ([⟨5, 0, zeroAccountSummary, 10⟩] : List TAccountCacheEntry),
          11 - e.LastAccess < 100) →
        ([⟨5, 0, zeroAccountSummary, 10⟩] : List TAccountCacheEntry).map
          (sweepAccount 11 100) = [⟨5, 0, zeroAccountSummary, 10⟩])) :=
  C5_theorem.1 1 11 100 (fun _ => (0, zeroAccountSummary)) ⟨5, 0, zeroAccountSummary, 10⟩ []
    7 zeroAccountSummary (by decide) (by decide) rfl

end TibiaWeb

/-! ## Claim C4 -/

namespace TibiaWeb

/-- C4 counterexample: a failed account lookup does not leave the account
cache unchanged in every state — the passive expiry sweep that runs during
the scan can clear an expired slot even though nothing is stored: here the
single slot (key 5, last access 1) is expired at time 100, the lookup of
key 7 fails (result 3), and the cache comes back with the slot zeroed. -/
theorem C4_counterexample :
    GetAccountSummary 1 100 5 (fun _ => (3, zeroAccountSummary))
        [⟨5, 0, zeroAccountSummary, 1⟩] 7 =
      some ⟨3, zeroAccountSummary, [zeroAccountEntry], true⟩ ∧
    ([zeroAccountEntry] : List TAccountCacheEntry) ≠ [⟨5, 0, zeroAccountSummary, 1⟩] := by
  constructor
  · rfl
  · decide

/-- C4 (amended): on a cache miss `GetCharacterProfile` stores the backend
outcome — success or failure alike — in the character cache, whereas
`GetAccountSummary` stores an entry only when the backend result is 0.  For
every failed account lookup no slot gains the looked-up key: apart from the
passive expiry sweep shared by every scan (a no-op when all slots are
within the refresh interval) the account cache is unchanged, and a
subsequent call for the same id queries the backend again. -/
theorem C4_amended :
    (∀ (N now interval : Nat) (backend : String → Int × TCharacterProfile)
      (e0 : TCharacterCacheEntry) (tail : List TCharacterCacheEntry) (name : String)
      (result : Int) (ch : TCharacterProfile),
      EqualFold "" name = false →
      (∀ e ∈ e0 :: tail, EqualFold e.CharacterName name = false) →
      backend name = (result, ch) →
      ∃ i, i < (e0 :: tail).length ∧
        GetCharacterProfile N now interval backend (e0 :: tail) name =
          some ⟨result, ch,
            ((e0 :: tail).map (sweepCharacter now interval)).set i ⟨name, result, ch, now⟩,
            true⟩) ∧
    (∀ (N now interval : Nat) (backend : Int → Int × TAccountSummary)
      (e0 : TAccountCacheEntry) (tail : List TAccountCacheEntry) (accountID : Int)
      (result : Int) (acct : TAccountSummary),
      accountID ≠ 0 →
      (∀ e ∈ e0 :: tail, e.AccountID ≠ accountID) →
      backend accountID = (result, acct) →
      result ≠ 0 →
      GetAccountSummary N now interval backend (e0 :: tail) accountID =
        some ⟨result, acct, (e0 :: tail).map (sweepAccount now interval), true⟩ ∧
      (∀ e' ∈ (e0 :: tail).map (sweepAccount now interval), e'.AccountID ≠ accountID) ∧
      ((∀ e ∈ e0 :: tail, now - e.LastAccess < interval) →
        (e0 :: tail).map (sweepAccount now interval) = e0 :: tail) ∧
      (∀ (now' : Nat) (backend' : Int → Int × TAccountSummary),
        ∃ res, GetAccountSummary N now' interval backend'
            ((e0 :: tail).map (sweepAccount now interval)) accountID = some res ∧
          res.BackendQueried = true)) ∧
    (∀ (N now interval : Nat) (backend : Int → Int × TAccountSummary)
      (e0 : TAccountCacheEntry) (tail : List TAccountCacheEntry) (accountID : Int)
      (data : TAccountSummary),
      accountID ≠ 0 →
      (∀ e ∈ e0 :: tail, e.AccountID ≠ accountID) →
      backend accountID = (0, data) →
      ∃ i, i < (e0 :: tail).length ∧
        GetAccountSummary N now interval backend (e0 :: tail) accountID =
          some ⟨0, data,
            ((e0 :: tail).map (sweepAccount now interval)).set i
              { ((e0 :: tail).map (sweepAccount now interval)).getD i zeroAccountEntry with
                AccountID := accountID, Data := data, LastAccess := now }, true⟩) := by
  refine ⟨?_, ?_, ?_⟩
  · intro N now interval backend e0 tail name result ch hzero hmiss hbackend
    have hnone := characterScan_none now interval name e0 tail hzero hmiss
    have hswept := cacheScan_none_swept (sweepCharacter now interval) (fun e => e.LastAccess)
      (fun e => EqualFold e.CharacterName name) (e0 :: tail) 0 0 e0.LastAccess hnone
    have hargmin := cacheScan_lru_argmin zeroCharacterEntry (sweepCharacter now interval)
      (fun e => e.LastAccess) (fun e => EqualFold e.CharacterName name)
      (sweepCharacter_keeps_time now interval) e0 tail hnone
    refine ⟨_, hargmin.1, ?_⟩
    rw [GetCharacterProfile_miss_eq N now interval backend e0 tail name hnone, hbackend,
      hswept]
  · intro N now interval backend e0 tail accountID result acct hid hmiss hbackend hr
    have hnone := accountScan_none now interval accountID e0 tail hid hmiss
    have hswept := cacheScan_none_swept (sweepAccount now interval) (fun e => e.LastAccess)
      (fun e => e.AccountID == accountID) (e0 :: tail) 0 0 e0.LastAccess hnone
    refine ⟨?_, sweepAccount_id_ne now interval accountID (e0 :: tail) hid hmiss,
      sweepAccount_fresh now interval (e0 :: tail), ?_⟩
    · rw [GetAccountSummary_miss_eq N now interval backend e0 tail accountID hnone, hbackend,
        if_neg hr, hswept]
    · intro now' backend'
      rw [List.map_cons]
      exact GetAccountSummary_miss_queries N now' interval backend'
        (sweepAccount now interval e0) (tail.map (sweepAccount now interval)) accountID hid
        (by
          rw [← List.map_cons]
          exact sweepAccount_id_ne now interval accountID (e0 :: tail) hid hmiss)
  · intro N now interval backend e0 tail accountID data hid hmiss hbackend
    have hnone := accountScan_none now interval accountID e0 tail hid hmiss
    have hswept := cacheScan_none_swept (sweepAccount now interval) (fun e => e.LastAccess)
      (fun e => e.AccountID == accountID) (e0 :: tail) 0 0 e0.LastAccess hnone
    have hargmin := cacheScan_lru_argmin zeroAccountEntry (sweepAccount now interval)
      (fun e => e.LastAccess) (fun e => e.AccountID == accountID)
      (sweepAccount_keeps_time now interval) e0 tail hnone
    refine ⟨_, hargmin.1, ?_⟩
    rw [GetAccountSummary_miss_eq N now interval backend e0 tail accountID hnone, hbackend,
      if_pos rfl, hswept]

/-- C4 amended, witness: a failed character lookup is cached (result 1
stored), while a failed account lookup stores nothing and the next call
queries the backend again. -/
theorem C4_amended_witness :
    (∃ i, i < ([⟨"bob", 0, zeroCharacterProfile, 10⟩] : List TCharacterCacheEntry).length ∧
      GetCharacterProfile 1 11 100 (fun _ => (1, zeroCharacterProfile))
          [⟨"bob", 0, zeroCharacterProfile, 10⟩] "alice" =
        some ⟨1, zeroCharacterProfile,
          (([⟨"bob", 0, zeroCharacterProfile, 10⟩] : List TCharacterCacheEntry).map
              (sweepCharacter 11 100)).set i ⟨"alice", 1, zeroCharacterProfile, 11⟩,
          true⟩) ∧
    (GetAccountSummary 1 11 100 (fun _ => (2, zeroAccountSummary))
        [⟨5, 0, zeroAccountSummary, 10⟩] 7 =
      some ⟨2, zeroAccountSummary,
        ([⟨5, 0, zeroAccountSummary, 10⟩] : List TAccountCacheEntry).map
          (sweepAccount 11 100), true⟩ ∧
      (∀ e' ∈ ([⟨5, 0, zeroAccountSummary, 10⟩] : List TAccountCacheEntry).map
          (sweepAccount 11 100), e'.AccountID ≠ 7) ∧
      ((∀ e ∈ ([⟨5, 0, zeroAccountSummary, 10⟩] : List TAccountCacheEntry),
          11 - e.LastAccess < 100) →
        ([⟨5, 0, zeroAccountSummary, 10⟩] : List TAccountCacheEntry).map
          (sweepAccount 11 100) = [⟨5, 0, zeroAccountSummary, 10⟩]) ∧
      (∀ (now' : Nat) (backend' : Int → Int × TAccountSummary),
        ∃ res, GetAccountSummary 1 now' 100 backend'
            (([⟨5, 0, zeroAccountSummary, 10⟩] : List TAccountCacheEntry).map
              (sweepAccount 11 100)) 7 = some res ∧
          res.BackendQueried = true)) :=
  ⟨C4_amended.1 1 11 100 (fun _ => (1, zeroCharacterProfile))
      ⟨"bob", 0, zeroCharacterProfile, 10⟩ [] "alice" 1 zeroCharacterProfile (by decide)
      (by decide) rfl,
   C4_amended.2.1 1 11 100 (fun _ => (2, zeroAccountSummary)) ⟨5, 0, zeroAccountSummary, 10⟩
      [] 7 2 zeroAccountSummary (by decide) (by decide) rfl (by decide)⟩

end TibiaWeb

namespace TibiaWeb

theorem getD_mem {α : Type} (l : List α) : ∀ (n : Nat) (d : α), n < l.length →
    l.getD n d ∈ l := by
  induction l with
  | nil =>
    intro n d h
    simp at h
  | cons x rest ih =>
    intro n d h
    cases n with
    | zero => simp
    | succ m =>
      simp only [List.getD_cons_succ]
      exact List.mem_cons_of_mem x (ih m d (by simpa using h))

/-- With the zero key, the first matching slot of the account scan is an
empty (or just-cleared, or by-hypothesis zero-data) slot, so the lookup is
answered from the cache with the zero summary and no backend query. -/
theorem getAccountSummary_zero_key (N now interval : Nat)
    (backend : Int → Int × TAccountSummary) (e0 : TAccountCacheEntry)
    (tail : List TAccountCacheEntry)
    (H1 : ∃ e ∈ e0 :: tail, e.AccountID = 0 ∨ interval ≤ now - e.LastAccess)
    (H2 : ∀ e ∈ e0 :: tail, e.AccountID = 0 →
      interval ≤ now - e.LastAccess ∨ e.Data = zeroAccountSummary) :
    ∃ cache', GetAccountSummary N now interval backend (e0 :: tail) 0 =
      some ⟨0, zeroAccountSummary, cache', false⟩ := by
  have hex : ∃ e ∈ e0 :: tail, ((sweepAccount now interval e).AccountID == (0 : Int)) = true := by
    obtain ⟨e, he, hor⟩ := H1
    refine ⟨e, he, ?_⟩
    unfold sweepAccount
    rcases hor with h0 | hexp
    · split
      · simp [zeroAccountEntry]
      · simp [h0]
    · rw [if_pos hexp]
      simp [zeroAccountEntry]
  obtain ⟨j, hj⟩ := cacheScan_found_some (sweepAccount now interval) (fun e => e.LastAccess)
    (fun e => e.AccountID == (0 : Int)) (e0 :: tail) 0 0 e0.LastAccess hex
  obtain ⟨h0j, hjlen, hgetD, hmatch⟩ := cacheScan_found_spec zeroAccountEntry
    (sweepAccount now interval) (fun e => e.LastAccess) (fun e => e.AccountID == (0 : Int))
    (e0 :: tail) 0 0 e0.LastAccess j hj
  simp only [Nat.sub_zero] at hjlen hgetD hmatch
  have hdata : ((cacheScan (sweepAccount now interval) (fun e => e.LastAccess)
      (fun e => e.AccountID == (0 : Int)) (e0 :: tail) 0 0 e0.LastAccess).swept.getD j
      zeroAccountEntry).Data = zeroAccountSummary := by
    rw [hgetD]
    unfold sweepAccount at hmatch ⊢
    split at hmatch
    · rename_i hexp
      rw [if_pos hexp]
      rfl
    · rename_i hnotexp
      rw [if_neg hnotexp]
      have hid0 : ((e0 :: tail).getD j zeroAccountEntry).AccountID = 0 := by
        simpa using hmatch
      rcases H2 ((e0 :: tail).getD j zeroAccountEntry)
          (getD_mem (e0 :: tail) j zeroAccountEntry hjlen) hid0 with hexp2 | hd
      · exact absurd hexp2 hnotexp
      · exact hd
  rw [GetAccountSummary_hit_eq N now interval backend e0 tail 0 j hj]
  exact ⟨_, by rw [hdata]⟩

/-- Character-cache analogue of `getAccountSummary_zero_key` for the empty
name. -/
theorem getCharacterProfile_zero_key (N now interval : Nat)
    (backend : String → Int × TCharacterProfile) (e0 : TCharacterCacheEntry)
    (tail : List TCharacterCacheEntry)
    (H1 : ∃ e ∈ e0 :: tail, EqualFold e.CharacterName "" = true ∨
      interval ≤ now - e.LastAccess)
    (H2 : ∀ e ∈ e0 :: tail, EqualFold e.CharacterName "" = true →
      interval ≤ now - e.LastAccess ∨ (e.Result = 0 ∧ e.Data = zeroCharacterProfile)) :
    ∃ cache', GetCharacterProfile N now interval backend (e0 :: tail) "" =
      some ⟨0, zeroCharacterProfile, cache', false⟩ := by
  have hex : ∃ e ∈ e0 :: tail,
      EqualFold (sweepCharacter now interval e).CharacterName "" = true := by
    obtain ⟨e, he, hor⟩ := H1
    refine ⟨e, he, ?_⟩
    unfold sweepCharacter
    rcases hor with h0 | hexp
    · split
      · rfl
      · exact h0
    · rw [if_pos hexp]
      rfl
  obtain ⟨j, hj⟩ := cacheScan_found_some (sweepCharacter now interval)
    (fun e => e.LastAccess) (fun e => EqualFold e.CharacterName "") (e0 :: tail) 0 0
    e0.LastAccess hex
  obtain ⟨h0j, hjlen, hgetD, hmatch⟩ := cacheScan_found_spec zeroCharacterEntry
    (sweepCharacter now interval) (fun e => e.LastAccess)
    (fun e => EqualFold e.CharacterName "") (e0 :: tail) 0 0 e0.LastAccess j hj
  simp only [Nat.sub_zero] at hjlen hgetD hmatch
  have hdata : ((cacheScan (sweepCharacter now interval) (fun e => e.LastAccess)
        (fun e => EqualFold e.CharacterName "") (e0 :: tail) 0 0 e0.LastAccess).swept.getD j
        zeroCharacterEntry).Result = 0 ∧
      ((cacheScan (sweepCharacter now interval) (fun e => e.LastAccess)
        (fun e => EqualFold e.CharacterName "") (e0 :: tail) 0 0 e0.LastAccess).swept.getD j
        zeroCharacterEntry).Data = zeroCharacterProfile := by
    rw [hgetD]
    unfold sweepCharacter at hmatch ⊢
    split at hmatch
    · rename_i hexp
      rw [if_pos hexp]
      exact ⟨rfl, rfl⟩
    · rename_i hnotexp
      rw [if_neg hnotexp]
      rcases H2 ((e0 :: tail).getD j zeroCharacterEntry)
          (getD_mem (e0 :: tail) j zeroCharacterEntry hjlen) hmatch with hexp2 | hd
      · exact absurd hexp2 hnotexp
      · exact hd
  rw [GetCharacterProfile_hit_eq N now interval backend e0 tail "" j hj]
  exact ⟨_, by rw [hdata.1, hdata.2]⟩

theorem GetAccountSummary_alloc (N now interval : Nat)
    (backend : Int → Int × TAccountSummary) (accountID : Int) (hN : 0 < N) :
    GetAccountSummary N now interval backend [] accountID =
      GetAccountSummary N now interval backend (List.replicate N zeroAccountEntry)
        accountID := by
  unfold GetAccountSummary
  rw [if_pos rfl, if_neg]
  cases N with
  | zero => omega
  | succ m => simp [List.replicate_succ]

theorem GetCharacterProfile_alloc (N now interval : Nat)
    (backend : String → Int × TCharacterProfile) (name : String) (hN : 0 < N) :
    GetCharacterProfile N now interval backend [] name =
      GetCharacterProfile N now interval backend (List.replicate N zeroCharacterEntry)
        name := by
  unfold GetCharacterProfile
  rw [if_pos rfl, if_neg]
  cases N with
  | zero => omega
  | succ m => simp [List.replicate_succ]

end TibiaWeb

/-! ## Claim C9 -/

namespace TibiaWeb

/-- C9 counterexample: an empty slot may exist while an earlier, live slot
carries the zero key with non-zero data (reachable: a successful backend
answer for account 0 cached while the cache was full, then another slot
invalidated); the lookup of key 0 then answers from that live slot, not
with a zero-valued summary. -/
theorem C9_counterexample :
    GetAccountSummary 2 100 50 (fun _ => (-1, zeroAccountSummary))
        [⟨0, 0, ⟨0, "x", 0, 0, false, []⟩, 90⟩, zeroAccountEntry] 0 =
      some ⟨0, ⟨0, "x", 0, 0, false, []⟩,
        [⟨0, 0, ⟨0, "x", 0, 0, false, []⟩, 100⟩, zeroAccountEntry], false⟩ ∧
    zeroAccountEntry ∈
      ([⟨0, 0, ⟨0, "x", 0, 0, false, []⟩, 90⟩, zeroAccountEntry] :
        List TAccountCacheEntry) ∧
    (⟨0, "x", 0, 0, false, []⟩ : TAccountSummary) ≠ zeroAccountSummary := by
  refine ⟨rfl, by simp, by decide⟩

/-- C9 (amended): for the zero-valued key the bounded recency lookups match
the first zero-key slot and answer from the cache without contacting the
backend; whenever every live (unexpired) slot carrying the zero key is
empty — in particular on the very first access after allocation —
`GetAccountSummary 0` returns result 0 with the zero-valued summary and
`GetCharacterProfile ""` returns result 0 with the zero-valued profile,
performing no backend query. -/
theorem C9_amended :
    (∀ (N now interval : Nat) (backend : Int → Int × TAccountSummary)
      (e0 : TAccountCacheEntry) (tail : List TAccountCacheEntry),
      (∃ e ∈ e0 :: tail, e.AccountID = 0 ∨ interval ≤ now - e.LastAccess) →
      (∀ e ∈ e0 :: tail, e.AccountID = 0 →
        interval ≤ now - e.LastAccess ∨ e.Data = zeroAccountSummary) →
      ∃ cache', GetAccountSummary N now interval backend (e0 :: tail) 0 =
        some ⟨0, zeroAccountSummary, cache', false⟩) ∧
    (∀ (N now interval : Nat) (backend : String → Int × TCharacterProfile)
      (e0 : TCharacterCacheEntry) (tail : List TCharacterCacheEntry),
      (∃ e ∈ e0 :: tail, EqualFold e.CharacterName "" = true ∨
        interval ≤ now - e.LastAccess) →
      (∀ e ∈ e0 :: tail, EqualFold e.CharacterName "" = true →
        interval ≤ now - e.LastAccess ∨
          (e.Result = 0 ∧ e.Data = zeroCharacterProfile)) →
      ∃ cache', GetCharacterProfile N now interval backend (e0 :: tail) "" =
        some ⟨0, zeroCharacterProfile, cache', false⟩) ∧
    (∀ (N now interval : Nat) (backend : Int → Int × TAccountSummary), 0 < N →
      ∃ cache', GetAccountSummary N now interval backend [] 0 =
        some ⟨0, zeroAccountSummary, cache', false⟩) ∧
    (∀ (N now interval : Nat) (backend : String → Int × TCharacterProfile), 0 < N →
      ∃ cache', GetCharacterProfile N now interval backend [] "" =
        some ⟨0, zeroCharacterProfile, cache', false⟩) := by
  refine ⟨getAccountSummary_zero_key, getCharacterProfile_zero_key, ?_, ?_⟩
  · intro N now interval backend hN
    rw [GetAccountSummary_alloc N now interval backend 0 hN]
    cases N with
    | zero => omega
    | succ m =>
      rw [List.replicate_succ]
      refine getAccountSummary_zero_key (m + 1) now interval backend zeroAccountEntry
        (List.replicate m zeroAccountEntry) ⟨zeroAccountEntry, by simp, Or.inl rfl⟩ ?_
      intro e he _
      right
      have : e = zeroAccountEntry := by
        rcases List.mem_cons.mp he with rfl | h2
        · rfl
        · exact List.eq_of_mem_replicate h2
      rw [this]
      rfl
  · intro N now interval backend hN
    rw [GetCharacterProfile_alloc N now interval backend "" hN]
    cases N with
    | zero => omega
    | succ m =>
      rw [List.replicate_succ]
      refine getCharacterProfile_zero_key (m + 1) now interval backend zeroCharacterEntry
        (List.replicate m zeroCharacterEntry) ⟨zeroCharacterEntry, by simp, Or.inl rfl⟩ ?_
      intro e he _
      right
      have : e = zeroCharacterEntry := by
        rcases List.mem_cons.mp he with rfl | h2
        · rfl
        · exact List.eq_of_mem_replicate h2
      rw [this]
      exact ⟨rfl, rfl⟩

/-- C9 amended, witness: the first accesses after allocation (capacity 2)
answer with the zero summary and profile without querying the backend. -/
theorem C9_amended_witness :
    (∃ cache', GetAccountSummary 2 7 50 (fun _ => (-1, zeroAccountSummary)) [] 0 =
      some ⟨0, zeroAccountSummary, cache', false⟩) ∧
    (∃ cache', GetCharacterProfile 2 7 50 (fun _ => (-1, zeroCharacterProfile)) [] "" =
      some ⟨0, zeroCharacterProfile, cache', false⟩) :=
  ⟨C9_amended.2.2.1 2 7 50 (fun _ => (-1, zeroAccountSummary)) (by decide),
   C9_amended.2.2.2 2 7 50 (fun _ => (-1, zeroCharacterProfile)) (by decide)⟩

end TibiaWeb

/-! ## Claim C6 -/

namespace TibiaWeb

/-- C6: two `GetWorlds` calls while the cache is unexpired return the
identical snapshot both times, leave the state untouched and perform no
backend call; a call after the expiry instant with a successful backend
performs exactly one backend refresh and atomically replaces both the
snapshot and the expiry timestamp. -/
theorem C6_theorem :
    (∀ (interval now1 now2 : Nat) (backend1 backend2 : Int × List TWorld)
      (st : WorldsState),
      now1 < st.RefreshTime → now2 < st.RefreshTime →
      GetWorlds now1 interval backend1 st = ⟨st.Cache, st, false⟩ ∧
      GetWorlds now2 interval backend2 (GetWorlds now1 interval backend1 st).State =
        ⟨st.Cache, st, false⟩) ∧
    (∀ (interval now : Nat) (ws : List TWorld) (st : WorldsState),
      st.RefreshTime < now →
      GetWorlds now interval (0, ws) st = ⟨ws, ⟨ws, now + interval⟩, true⟩) := by
  constructor
  · intro interval now1 now2 backend1 backend2 st h1 h2
    have e1 : GetWorlds now1 interval backend1 st = ⟨st.Cache, st, false⟩ := by
      unfold GetWorlds
      rw [if_neg (by omega)]
    refine ⟨e1, ?_⟩
    rw [e1]
    dsimp only
    unfold GetWorlds
    rw [if_neg (by omega)]
  · intro interval now ws st h
    unfold GetWorlds
    rw [if_pos (by omega)]
    rfl

/-- C6 witness: a concrete state exercising both the unexpired double call
and the post-expiry refresh. -/
theorem C6_theorem_witness :
    (GetWorlds 3 10 (0, [⟨"Antica", "Normal", 1, 2, 3, 4, 5, 6⟩]) ⟨[], 5⟩ =
        ⟨[], ⟨[], 5⟩, false⟩ ∧
      GetWorlds 4 10 (1, []) (GetWorlds 3 10 (0, [⟨"Antica", "Normal", 1, 2, 3, 4, 5, 6⟩])
          ⟨[], 5⟩).State = ⟨[], ⟨[], 5⟩, false⟩) ∧
    GetWorlds 6 10 (0, [⟨"Antica", "Normal", 1, 2, 3, 4, 5, 6⟩]) ⟨[], 5⟩ =
      ⟨[⟨"Antica", "Normal", 1, 2, 3, 4, 5, 6⟩],
        ⟨[⟨"Antica", "Normal", 1, 2, 3, 4, 5, 6⟩], 16⟩, true⟩ :=
  ⟨C6_theorem.1 10 3 4 (0, [⟨"Antica", "Normal", 1, 2, 3, 4, 5, 6⟩]) (1, []) ⟨[], 5⟩
      (by decide) (by decide),
   C6_theorem.2 10 6 [⟨"Antica", "Normal", 1, 2, 3, 4, 5, 6⟩] ⟨[], 5⟩ (by decide)⟩

end TibiaWeb

/-! ## Claim C10 -/

namespace TibiaWeb

/-- C10: when the worlds cache has expired and the backend fetch fails,
`GetWorlds` leaves both the snapshot and the expiry timestamp unchanged and
returns the previous (stale) snapshot, so any immediately following call
(at the same or a later instant) attempts the backend fetch again. -/
theorem C10_theorem (interval now : Nat) (result : Int) (ws : List TWorld)
    (st : WorldsState) (hexp : st.RefreshTime ≤ now) (hfail : result ≠ 0) :
    GetWorlds now interval (result, ws) st = ⟨st.Cache, st, true⟩ ∧
    (∀ (now' : Nat) (backend' : Int × List TWorld), now ≤ now' →
      (GetWorlds now' interval backend'
        (GetWorlds now interval (result, ws) st).State).BackendQueried = true) := by
  have e1 : GetWorlds now interval (result, ws) st = ⟨st.Cache, st, true⟩ := by
    unfold GetWorlds
    rw [if_pos hexp, if_neg hfail]
  refine ⟨e1, ?_⟩
  intro now' backend' hle
  rw [e1]
  dsimp only
  unfold GetWorlds
  rw [if_pos (by omega)]
  by_cases hb : backend'.1 = 0
  · rw [if_pos hb]
  · rw [if_neg hb]

/-- C10 witness: a concrete expired state with a failing backend, retried
by the next call. -/
theorem C10_theorem_witness :
    GetWorlds 8 10 (3, []) ⟨[⟨"Antica", "Normal", 1, 2, 3, 4, 5, 6⟩], 5⟩ =
      ⟨[⟨"Antica", "Normal", 1, 2, 3, 4, 5, 6⟩],
        ⟨[⟨"Antica", "Normal", 1, 2, 3, 4, 5, 6⟩], 5⟩, true⟩ ∧
    (∀ (now' : Nat) (backend' : Int × List TWorld), 8 ≤ now' →
      (GetWorlds now' 10 backend'
        (GetWorlds 8 10 (3, []) ⟨[⟨"Antica", "Normal", 1, 2, 3, 4, 5, 6⟩], 5⟩).State
        ).BackendQueried = true) :=
  C10_theorem 10 8 3 [] ⟨[⟨"Antica", "Normal", 1, 2, 3, 4, 5, 6⟩], 5⟩ (by decide) (by decide)

end TibiaWeb
